import Mathlib

/-! # Outbound e-mail core: raw MIME builder, transports, address helper

A shallow embedding of `email/mailer.go`, `email/local.go`, `email/ses.go`
and `sendmail.go`, followed by the theorems that settle the claims made
about them.

Modelling conventions.

* A Go `string` is a `Str`, a list of Unicode code points.  Every string of a
  `SendMailData` comes out of `encoding/json`, which only produces valid
  UTF-8, and on valid UTF-8 the byte-indexed operations used by the code
  (`strings.Index` of an ASCII byte, slicing at such an index,
  `strings.TrimSpace`, concatenation, `len(s) == 0`) agree with their
  code-point versions.
* A Go `[]byte` that holds binary data (an attachment body) is a `Bytes`, a
  list of `Byte`, a natural number below 256.
* The `bytes.Buffer` that `BuildRawEmail` fills only ever receives strings, so
  it is modelled by the `Str` that is the concatenation of everything written.
* `time.Now().Format(time.RFC1123Z)` and the two random boundaries drawn by
  `multipart.NewWriter` are inputs of the model.
* The Go standard library (`mime/multipart`, `net/textproto`,
  `encoding/base64`, `strings`) is modelled from its documented behaviour.
* What `fetchAttachments` and `sudoSendMail` reach outside the material
  (`http.Get`, `parseBody`, `email.StripHTML`, `backend.Emailer.Send`,
  `middleware.Extract`, `backend.DB.IncrementMonthlyEmailSent`) is an input of
  the model, and the calls made to it are returned next to the result.
-/

namespace Email

/-- Go `string`. -/
abbrev Str := List Char

/-- One octet. -/
abbrev Byte := Fin 256

/-- Go `[]byte` holding binary data. -/
abbrev Bytes := List Byte

/-- Go `error`, carried as its message. -/
abbrev GoError := Str

/-- `Attachment` of `email/mailer.go`. -/
structure Attachment where
  URL : Str
  Body : Bytes
  ContentType : Str
  Filename : Str
deriving DecidableEq, Repr

/-- `SendMailData` of `email/mailer.go`. -/
structure SendMailData where
  From : Str
  FromName : Str
  To : Str
  ToName : Str
  Subject : Str
  HTMLBody : Str
  TextBody : Str
  ReplyTo : Str
  Body : Str
  Attachments : List Attachment
  IsTransactional : Bool
deriving DecidableEq, Repr

/-! ## `net/textproto` and `mime/multipart` -/

/-- `textproto.MIMEHeader`: a map from header name to value.  The keys used by
`BuildRawEmail` are already in canonical form and every key is `Set` once, so a
key carries a single value. -/
structure MIMEHeader where
  entries : List (Str × Str)
deriving DecidableEq, Repr

/-- The empty header `textproto.MIMEHeader{}`. -/
def MIMEHeader.empty : MIMEHeader := ⟨[]⟩

/-- `MIMEHeader.Set`: replaces whatever the key held. -/
def MIMEHeader.Set (h : MIMEHeader) (key value : Str) : MIMEHeader :=
  ⟨(key, value) :: h.entries.filter (fun e => e.1 != key)⟩

/-- Go's `<` on strings: lexicographic on the code units. -/
def strLt : Str → Str → Bool
  | [], [] => false
  | [], _ :: _ => true
  | _ :: _, [] => false
  | a :: as, b :: bs => if a.toNat < b.toNat then true else if b.toNat < a.toNat then false else strLt as bs

/-- Insertion of one entry into a list of entries sorted by key. -/
def insertEntry (e : Str × Str) : List (Str × Str) → List (Str × Str)
  | [] => [e]
  | x :: xs => if strLt x.1 e.1 then x :: insertEntry e xs else e :: x :: xs

/-- The entries of a header in the order `CreatePart` writes them: keys
collected and sorted (`slices.Sort(keys)`). -/
def sortedEntries (h : MIMEHeader) : List (Str × Str) :=
  h.entries.foldr insertEntry []

/-- The header lines of a part: `"%s: %s\r\n"` for each key in sorted order. -/
def headerLines (h : MIMEHeader) : Str :=
  ((sortedEntries h).map (fun e => e.1 ++ ": ".toList ++ e.2 ++ "\r\n".toList)).flatten

/-- `multipart.part`: the handle `CreatePart` returns.  `we` is the sticky
error of a failed write to the underlying writer. -/
structure part where
  closed : Bool
  we : Option GoError
deriving DecidableEq, Repr

/-- `multipart.Writer` over the shared buffer. -/
structure Writer where
  boundary : Str
  lastpart : Option part
deriving DecidableEq, Repr

/-- `multipart.NewWriter`, with the random boundary it draws given. -/
def NewWriter (boundary : Str) : Writer := ⟨boundary, none⟩

/-- `Writer.Boundary`. -/
def Writer.Boundary (w : Writer) : Str := w.boundary

/-- `part.close`: marks the part closed and reports its sticky write error. -/
def part.close (p : part) : part × Option GoError := ({ p with closed := true }, p.we)

/-- `part.Write` into the buffer: refused on a closed part, otherwise the data
is appended (a `bytes.Buffer` write does not fail). -/
def part.Write (p : part) (d : Str) (buf : Str) : Str × Option GoError :=
  if p.closed then (buf, some "multipart: can't write to finished part".toList)
  else (buf ++ d, none)

/-- `Writer.CreatePart`: closes the previous part, then writes the delimiter
(preceded by CRLF unless this is the first part), the sorted header lines and
a blank line.  Returns the writer, the new part and the buffer. -/
def Writer.CreatePart (w : Writer) (header : MIMEHeader) (buf : Str) :
    Except GoError (Writer × part × Str) :=
  match (w.lastpart.map fun p => (p.close).2).join with
  | some err => .error err
  | none =>
    let b : Str :=
      (if w.lastpart.isSome then "\r\n--".toList ++ w.boundary ++ "\r\n".toList
       else "--".toList ++ w.boundary ++ "\r\n".toList)
      ++ headerLines header ++ "\r\n".toList
    let p : part := { closed := false, we := none }
    .ok ({ w with lastpart := some p }, p, buf ++ b)

/-- `Writer.Close`: closes the last part and writes the closing delimiter;
when the last part reports a write error nothing is written. -/
def Writer.Close (w : Writer) (buf : Str) : Str × Option GoError :=
  match (w.lastpart.map fun p => (p.close).2).join with
  | some err => (buf, some err)
  | none => (buf ++ "\r\n--".toList ++ w.boundary ++ "--\r\n".toList, none)

/-! ## `encoding/base64` -/

/-- The alphabet of `base64.StdEncoding`. -/
def encodeStd : Str :=
  "ABCDEFGHIJKLMNOPQRSTUVWXYZabcdefghijklmnopqrstuvwxyz0123456789+/".toList

/-- The lookup `enc.encode[i]`. -/
def encodeChar (i : Nat) : Char := encodeStd.getD i 'A'

/-- `base64.StdEncoding.EncodeToString`: three octets become four characters,
and a final group of one or two octets is padded with `=`. -/
def EncodeToString : Bytes → Str
  | [] => []
  | [a] =>
    let val := a.val <<< 16
    [encodeChar (val >>> 18 &&& 0x3F), encodeChar (val >>> 12 &&& 0x3F), '=', '=']
  | [a, b] =>
    let val := a.val <<< 16 ||| b.val <<< 8
    [encodeChar (val >>> 18 &&& 0x3F), encodeChar (val >>> 12 &&& 0x3F),
     encodeChar (val >>> 6 &&& 0x3F), '=']
  | a :: b :: c :: rest =>
    let val := a.val <<< 16 ||| b.val <<< 8 ||| c.val
    encodeChar (val >>> 18 &&& 0x3F) :: encodeChar (val >>> 12 &&& 0x3F) ::
      encodeChar (val >>> 6 &&& 0x3F) :: encodeChar (val &&& 0x3F) :: EncodeToString rest

/-! ## `BuildRawEmail` -/

/-- Go's slice expression `s[i:j]`. -/
def slice (s : Str) (i j : Nat) : Str := (s.drop i).take (j - i)

/-- The loop `for i := 0; i < len(encoded); i += 76` of `BuildRawEmail`, from
position `i` on: each round writes `encoded[i:end] + "\r\n"` to the part.
`none` when the fuel does not cover the remaining rounds. -/
def writeLines (attachPart : part) (encoded : Str) : Nat → Nat → Str → Option Str
  | 0, _, _ => none
  | fuel + 1, i, buf =>
    if i < encoded.length then
      let end_ := if i + 76 > encoded.length then encoded.length else i + 76
      writeLines attachPart encoded fuel (i + 76)
        (attachPart.Write (slice encoded i end_ ++ "\r\n".toList) buf).1
    else some buf

/-- The body of the loop over `data.Attachments` for one attachment.  The
line loop is run with `len(encoded) + 1` rounds of fuel; a run that would not
finish within them is reported as an error, which `writeLines_eq` rules out. -/
def writeAttachment (writer : Writer) (buf : Str) (attachment : Attachment) :
    Except GoError (Writer × Str) :=
  if attachment.Body.length = 0 then .ok (writer, buf)
  else
    let contentType := if attachment.ContentType = [] then "application/octet-stream".toList
      else attachment.ContentType
    let filename := if attachment.Filename = [] then "attachment".toList else attachment.Filename
    let attachHeader := MIMEHeader.empty
    let attachHeader := attachHeader.Set "Content-Type".toList contentType
    let attachHeader := attachHeader.Set "Content-Transfer-Encoding".toList "base64".toList
    let attachHeader := attachHeader.Set "Content-Disposition".toList
      ("attachment; filename=\"".toList ++ filename ++ "\"".toList)
    match writer.CreatePart attachHeader buf with
    | .error err => .error ("failed to create attachment part: ".toList ++ err)
    | .ok (writer, attachPart, buf) =>
      let encoded := EncodeToString attachment.Body
      match writeLines attachPart encoded (encoded.length + 1) 0 buf with
      | none => .error "attachment loop did not finish".toList
      | some buf => .ok (writer, buf)

/-- The loop `for _, attachment := range data.Attachments`. -/
def writeAttachments (writer : Writer) (buf : Str) : List Attachment → Except GoError (Writer × Str)
  | [] => .ok (writer, buf)
  | attachment :: rest =>
    match writeAttachment writer buf attachment with
    | .error err => .error err
    | .ok (writer, buf) => writeAttachments writer buf rest

/-- The block `if data.HTMLBody != "" || data.TextBody != ""` of
`BuildRawEmail`: the multipart/alternative part with its sub-parts. -/
def writeAlternative (data : SendMailData) (writer : Writer) (altBoundary : Str) (buf : Str) :
    Except GoError (Writer × Str) :=
  if data.HTMLBody ≠ [] ∨ data.TextBody ≠ [] then
    let altWriter := NewWriter altBoundary
    let altBoundary := altWriter.Boundary
    let partHeader := MIMEHeader.empty
    let partHeader := partHeader.Set "Content-Type".toList
      ("multipart/alternative; boundary=\"".toList ++ altBoundary ++ "\"".toList)
    match writer.CreatePart partHeader buf with
    | .error err => .error ("failed to create alternative part: ".toList ++ err)
    | .ok (writer, _, buf) =>
      let text : Except GoError (Writer × Str) :=
        if data.TextBody ≠ [] then
          let textHeader := MIMEHeader.empty
          let textHeader := textHeader.Set "Content-Type".toList "text/plain; charset=UTF-8".toList
          let textHeader := textHeader.Set "Content-Transfer-Encoding".toList "quoted-printable".toList
          match altWriter.CreatePart textHeader buf with
          | .error err => .error ("failed to create text part: ".toList ++ err)
          | .ok (altWriter, textPart, buf) => .ok (altWriter, (textPart.Write data.TextBody buf).1)
        else .ok (altWriter, buf)
      match text with
      | .error err => .error err
      | .ok (altWriter, buf) =>
        let html : Except GoError (Writer × Str) :=
          if data.HTMLBody ≠ [] then
            let htmlHeader := MIMEHeader.empty
            let htmlHeader := htmlHeader.Set "Content-Type".toList "text/html; charset=UTF-8".toList
            let htmlHeader := htmlHeader.Set "Content-Transfer-Encoding".toList "quoted-printable".toList
            match altWriter.CreatePart htmlHeader buf with
            | .error err => .error ("failed to create HTML part: ".toList ++ err)
            | .ok (altWriter, htmlPart, buf) => .ok (altWriter, (htmlPart.Write data.HTMLBody buf).1)
          else .ok (altWriter, buf)
        match html with
        | .error err => .error err
        | .ok (altWriter, buf) => .ok (writer, (altWriter.Close buf).1)
  else .ok (writer, buf)

/-- The header lines `BuildRawEmail` writes before it creates the multipart
writer: From, To, Reply-To, Subject, Date, MIME-Version and, for a
transactional message, X-Transactional and Precedence. -/
def writeHeaders (data : SendMailData) (now : Str) : Str :=
  let from_ := if data.FromName ≠ [] then data.FromName ++ " <".toList ++ data.From ++ ">".toList
    else data.From
  let to_ := if data.ToName ≠ [] then data.ToName ++ " <".toList ++ data.To ++ ">".toList
    else data.To
  let replyTo := if data.ReplyTo = [] then data.From else data.ReplyTo
  let buf : Str := []
  let buf := buf ++ ("From: ".toList ++ from_ ++ "\r\n".toList)
  let buf := buf ++ ("To: ".toList ++ to_ ++ "\r\n".toList)
  let buf := buf ++ ("Reply-To: ".toList ++ replyTo ++ "\r\n".toList)
  let buf := buf ++ ("Subject: ".toList ++ data.Subject ++ "\r\n".toList)
  let buf := buf ++ ("Date: ".toList ++ now ++ "\r\n".toList)
  let buf := buf ++ "MIME-Version: 1.0\r\n".toList
  if data.IsTransactional then
    (buf ++ "X-Transactional: true\r\n".toList) ++ "Precedence: bulk\r\n".toList
  else buf

/-- `BuildRawEmail` of `email/mailer.go`.  `now` is the formatted current
time, `boundary` and `altBoundary` the boundaries of the outer and of the
alternative multipart writer. -/
def BuildRawEmail (data : SendMailData) (now boundary altBoundary : Str) : Except GoError Str :=
  let buf := writeHeaders data now
  let writer := NewWriter boundary
  let boundary := writer.Boundary
  let buf := buf ++ ("Content-Type: multipart/mixed; boundary=\"".toList ++ boundary ++ "\"\r\n\r\n".toList)
  match writeAlternative data writer altBoundary buf with
  | .error err => .error err
  | .ok (writer, buf) =>
    match writeAttachments writer buf data.Attachments with
    | .error err => .error err
    | .ok (writer, buf) => .ok (writer.Close buf).1

/-! ## The raw message as the specification describes it -/

/-- The line terminator. -/
def CRLF : Str := "\r\n".toList

/-- MIME parts of one multipart level, each starting with its delimiter line:
consecutive parts are separated by the CRLF that precedes a delimiter. -/
def joinParts : List Str → Str
  | [] => []
  | [p] => p
  | p :: q :: r => p ++ CRLF ++ joinParts (q :: r)

/-- A string cut into consecutive lines of 76 characters; the last line holds
what is left. -/
def lines76 (s : Str) : List Str :=
  if s = [] then [] else s.take 76 :: lines76 (s.drop 76)
termination_by s.length
decreasing_by
  simp_wf
  cases s with
  | nil => contradiction
  | cons c r => simp

/-- A string hard-wrapped at 76 characters, every line terminated by CRLF. -/
def wrapped (s : Str) : Str := ((lines76 s).map (fun l => l ++ CRLF)).flatten

/-- The delimiter line, the three header lines and the blank line that open
the part of an attachment under the outer boundary `B`. -/
def attachmentHead (B : Str) (a : Attachment) : Str :=
  "--".toList ++ B ++ CRLF
  ++ ("Content-Disposition: attachment; filename=\"".toList
      ++ (if a.Filename = [] then "attachment".toList else a.Filename) ++ "\"".toList ++ CRLF)
  ++ ("Content-Transfer-Encoding: base64".toList ++ CRLF)
  ++ ("Content-Type: ".toList
      ++ (if a.ContentType = [] then "application/octet-stream".toList else a.ContentType) ++ CRLF)
  ++ CRLF

/-- The part of one attachment: its head, then the wrapped base64 of its body. -/
def attachmentPart (B : Str) (a : Attachment) : Str :=
  attachmentHead B a ++ wrapped (EncodeToString a.Body)

/-- One part for each attachment with a non-empty body, in the original order. -/
def attachmentParts (B : Str) (l : List Attachment) : List Str :=
  (l.filter (fun a => a.Body ≠ [])).map (attachmentPart B)

/-- A body sub-part under the inner boundary `A`: delimiter line, the declared
transfer encoding, the content type, a blank line and the payload as given. -/
def bodySubPart (A contentType payload : Str) : Str :=
  "--".toList ++ A ++ CRLF
  ++ ("Content-Transfer-Encoding: quoted-printable".toList ++ CRLF)
  ++ ("Content-Type: ".toList ++ contentType ++ CRLF)
  ++ CRLF ++ payload

/-- The sub-parts of the alternative part: text/plain when `TextBody` is
non-empty, then text/html when `HTMLBody` is non-empty. -/
def bodySubParts (A : Str) (data : SendMailData) : List Str :=
  (if data.TextBody ≠ [] then [bodySubPart A "text/plain; charset=UTF-8".toList data.TextBody] else [])
  ++ (if data.HTMLBody ≠ [] then [bodySubPart A "text/html; charset=UTF-8".toList data.HTMLBody] else [])

/-- The multipart/alternative part under the outer boundary `B`, closed by
the inner closing delimiter. -/
def alternativePart (B A : Str) (data : SendMailData) : Str :=
  "--".toList ++ B ++ CRLF
  ++ ("Content-Type: multipart/alternative; boundary=\"".toList ++ A ++ "\"".toList ++ CRLF)
  ++ CRLF
  ++ joinParts (bodySubParts A data)
  ++ (CRLF ++ "--".toList ++ A ++ "--".toList ++ CRLF)

/-- The alternative part is present exactly when a body variant is. -/
def alternativeParts (B A : Str) (data : SendMailData) : List Str :=
  if data.HTMLBody ≠ [] ∨ data.TextBody ≠ [] then [alternativePart B A data] else []

/-- A writer on boundary `B` whose parts so far all took their writes. -/
def wr (B : Str) (started : Bool) : Writer :=
  ⟨B, if started then some ⟨false, none⟩ else none⟩

/-! ## Standard base64 decoding and CRLF removal (the reader's side) -/

/-- The octet of a number: its value modulo 256, as Go's `byte(x)`. -/
def byte (n : Nat) : Byte := ⟨n % 256, Nat.mod_lt _ (by decide)⟩

/-- The value of a base64 character: its position in the standard alphabet. -/
def decodeChar (c : Char) : Option Nat :=
  let i := encodeStd.indexOf c
  if i < 64 then some i else none

/-- A full group of four alphabet characters decodes to three octets. -/
def decodeQuad (c0 c1 c2 c3 : Char) : Option Bytes :=
  match decodeChar c0, decodeChar c1, decodeChar c2, decodeChar c3 with
  | some s0, some s1, some s2, some s3 =>
    let val := s0 <<< 18 ||| s1 <<< 12 ||| s2 <<< 6 ||| s3
    some [byte (val >>> 16), byte (val >>> 8), byte val]
  | _, _, _, _ => none

/-- The last group may end in one or two padding characters and then decodes
to two octets or one. -/
def decodeLast (c0 c1 c2 c3 : Char) : Option Bytes :=
  if c3 = '=' then
    if c2 = '=' then
      match decodeChar c0, decodeChar c1 with
      | some s0, some s1 =>
        let val := s0 <<< 18 ||| s1 <<< 12
        some [byte (val >>> 16)]
      | _, _ => none
    else
      match decodeChar c0, decodeChar c1, decodeChar c2 with
      | some s0, some s1, some s2 =>
        let val := s0 <<< 18 ||| s1 <<< 12 ||| s2 <<< 6
        some [byte (val >>> 16), byte (val >>> 8)]
      | _, _, _ => none
  else decodeQuad c0 c1 c2 c3

/-- Standard base64 decoding (RFC 4648, with padding): the input is read in
groups of four characters, only the last of which may be padded; anything
else is rejected. -/
def DecodeString : Str → Option Bytes
  | [] => some []
  | [c0, c1, c2, c3] => decodeLast c0 c1 c2 c3
  | c0 :: c1 :: c2 :: c3 :: rest =>
    match decodeQuad c0 c1 c2 c3, DecodeString rest with
    | some b, some r => some (b ++ r)
    | _, _ => none
  | _ => none

/-- Removal of the CRLF line terminators of a text. -/
def removeCRLF : Str → Str
  | [] => []
  | [c] => [c]
  | c :: d :: rest => if c = '\r' ∧ d = '\n' then removeCRLF rest else c :: removeCRLF (d :: rest)

/-! ## `strings` -/

/-- `strings.HasPrefix` read as a test: does `s` start with `p`. -/
def startsWith : Str → Str → Bool
  | _, [] => true
  | [], _ :: _ => false
  | c :: s, d :: p => c == d && startsWith s p

/-- The search of `strings.Index` from position `i` on: the position of the
first occurrence of `substr`, or -1. -/
def indexFrom (substr : Str) : Str → Nat → Int
  | [], i => if substr = [] then (i : Int) else -1
  | c :: s, i => if startsWith (c :: s) substr then (i : Int) else indexFrom substr s (i + 1)

/-- `strings.Index`. -/
def Index (s substr : Str) : Int := indexFrom substr s 0

/-- `strings.Contains`. -/
def Contains (s substr : Str) : Bool := decide (Index s substr ≥ 0)

/-- `unicode.IsSpace`: the white space that `strings.TrimSpace` removes. -/
def isSpace (c : Char) : Bool :=
  let n := c.toNat
  (9 ≤ n && n ≤ 13) || n == 0x20 || n == 0x85 || n == 0xA0 || n == 0x1680
    || (0x2000 ≤ n && n ≤ 0x200A) || n == 0x2028 || n == 0x2029 || n == 0x202F
    || n == 0x205F || n == 0x3000

/-- `strings.TrimSpace`: leading and trailing white space removed. -/
def TrimSpace (s : Str) : Str :=
  ((s.dropWhile isSpace).reverse.dropWhile isSpace).reverse

/-! ## `ExtractEmailAddress` -/

/-- `ExtractEmailAddress` of `email/mailer.go`. -/
def ExtractEmailAddress (email : Str) : Str :=
  let email := TrimSpace email
  if Contains email "<".toList && Contains email ">".toList then
    let start := Index email "<".toList
    let end_ := Index email ">".toList
    if start < end_ then slice email (start + 1).toNat end_.toNat
    else email
  else email

/-! ## The transports -/

/-- What a transport does to the outside, in order. -/
inductive Event where
  | BuildRawEmail (data : SendMailData)
  | SendMail (addr : Str) (from_ : Str) (to_ : List Str) (msg : Str)
  | LoadDefaultConfig (region : Str)
  | SendRawEmail (data : Str)
deriving DecidableEq, Repr

/-- What surrounds a transport: the clock and the boundaries `BuildRawEmail`
draws, the answer of the local relay to `smtp.SendMail`, the configured
region, the answer of `awsconfig.LoadDefaultConfig` for a region and the
answer of the SES client to `SendRawEmail`.  An answer is the error, if any. -/
structure Env where
  now : Str
  boundary : Str
  altBoundary : Str
  SendMail : Str → Str → List Str → Str → Option GoError
  S3Region : Str
  LoadDefaultConfig : Str → Option GoError
  SendRawEmail : Str → Str → Option GoError

/-- `Local.Send` of `email/local.go`: the returned error (`none` for nil)
and the events it caused. -/
def Local.Send (env : Env) (data : SendMailData) : Option GoError × List Event :=
  if data.To.length = 0 ∨ !Contains data.To "@".toList then
    (some "empty To email".toList, [])
  else if data.From.length = 0 ∨ !Contains data.From "@".toList then
    (some "empty From email".toList, [])
  else
    match BuildRawEmail data env.now env.boundary env.altBoundary with
    | .error err =>
      (some ("failed to build raw email: ".toList ++ err), [Event.BuildRawEmail data])
    | .ok rawEmail =>
      match env.SendMail "localhost:1025".toList data.From [data.To] rawEmail with
      | some err =>
        (some ("failed to send email via Mailpit: ".toList ++ err),
          [Event.BuildRawEmail data,
           Event.SendMail "localhost:1025".toList data.From [data.To] rawEmail])
      | none =>
        (none,
          [Event.BuildRawEmail data,
           Event.SendMail "localhost:1025".toList data.From [data.To] rawEmail])

/-- `AWSSES.Send` of `email/ses.go`: the returned error (`none` for nil) and
the events it caused. -/
def AWSSES.Send (env : Env) (data : SendMailData) : Option GoError × List Event :=
  if data.To.length = 0 ∨ !Contains data.To "@".toList then
    (some "empty To email".toList, [])
  else
    let data := if data.ReplyTo.length = 0 then { data with ReplyTo := data.From } else data
    let region := TrimSpace env.S3Region
    match env.LoadDefaultConfig region with
    | some err => (some err, [Event.LoadDefaultConfig region])
    | none =>
      match BuildRawEmail data env.now env.boundary env.altBoundary with
      | .error err =>
        (some ("failed to build raw email: ".toList ++ err),
          [Event.LoadDefaultConfig region, Event.BuildRawEmail data])
      | .ok rawEmail =>
        match env.SendRawEmail region rawEmail with
        | some err =>
          (some ("failed to send email via SES: ".toList ++ err),
            [Event.LoadDefaultConfig region, Event.BuildRawEmail data,
             Event.SendRawEmail rawEmail])
        | none =>
          (none,
            [Event.LoadDefaultConfig region, Event.BuildRawEmail data,
             Event.SendRawEmail rawEmail])

/-! ## More of `strings`, `fmt` and `net/http` -/

/-- `strings.Split(s, sep)` for a separator of one character, the only use
the code makes of it: the pieces between the separators, at least one. -/
def Split (s : Str) (sep : Char) : List Str :=
  match s with
  | [] => [[]]
  | c :: rest =>
    if c = sep then [] :: Split rest sep
    else
      match Split rest sep with
      | [] => [[c]]
      | x :: xs => (c :: x) :: xs

/-- `strings.Trim(s, cutset)`: leading and trailing characters of the cutset
removed. -/
def Trim (s cutset : Str) : Str :=
  ((s.dropWhile (fun c => decide (c ∈ cutset))).reverse.dropWhile
    (fun c => decide (c ∈ cutset))).reverse

/-- The verb `%d` of `fmt` on a non-negative integer. -/
def fmtInt (n : Nat) : Str := (Nat.repr n).toList

/-- `http.Header` of a response: the header lines by canonical name. -/
structure Header where
  entries : List (Str × Str)
deriving DecidableEq, Repr

/-- `Header.Get`: the first value held under the key, `""` when there is none. -/
def Header.Get (h : Header) (key : Str) : Str :=
  match h.entries.find? (fun e => e.1 == key) with
  | some e => e.2
  | none => []

/-- `http.Response`, with what `io.ReadAll(resp.Body)` yields in place of the
body stream. -/
structure HTTPResponse where
  StatusCode : Nat
  Header : Header
  Body : Except GoError Bytes

/-- The remote side as `http.Get` sees it: the answer to a request for a URL,
which may depend on how many requests this run has issued before. -/
abbrev Remote := Nat → Str → Except GoError HTTPResponse

/-! ## `fetchAttachments` -/

/-- The block of `fetchAttachments` that sets the content type from the
response when the attachment has none (`sendmail.go`, lines 97-107). -/
def setContentType (resp : HTTPResponse) (attachment : Attachment) : Attachment :=
  if attachment.ContentType = [] then
    let contentType := resp.Header.Get "Content-Type".toList
    if contentType ≠ [] then
      let idx := Index contentType ";".toList
      let contentType := if idx ≠ -1 then TrimSpace (contentType.take idx.toNat) else contentType
      { attachment with ContentType := contentType }
    else attachment
  else attachment

/-- The block of `fetchAttachments` that derives the file name when the
attachment has none (`sendmail.go`, lines 109-141); `i` is the position of the
attachment in the list. -/
def setFilename (resp : HTTPResponse) (i : Nat) (attachment : Attachment) : Attachment :=
  if attachment.Filename = [] then
    let cd := resp.Header.Get "Content-Disposition".toList
    let attachment :=
      if cd ≠ [] then
        let idx := Index cd "filename=".toList
        if idx ≠ -1 then
          let filename := cd.drop (idx + 9).toNat
          let filename := Trim filename "\"".toList
          { attachment with Filename := filename }
        else attachment
      else attachment
    let attachment :=
      if attachment.Filename = [] then
        let parts := Split attachment.URL '/'
        match parts.getLast? with
        | some filename =>
          let idx := Index filename "?".toList
          let filename := if idx ≠ -1 then filename.take idx.toNat else filename
          { attachment with Filename := filename }
        | none => attachment
      else attachment
    if attachment.Filename = [] then
      { attachment with Filename := "attachment_".toList ++ fmtInt (i + 1) }
    else attachment
  else attachment

/-- One round of the loop of `fetchAttachments`, for the attachment at
position `i` when `n` requests have been issued: the attachment as the round
leaves it, the error that ends the loop (if any) and the URLs requested. -/
def fetchOne (remote : Remote) (i n : Nat) (attachment : Attachment) :
    Attachment × Option GoError × List Str :=
  if attachment.Body.length > 0 then (attachment, none, [])
  else if attachment.URL = [] then
    (attachment, some ("attachment ".toList ++ fmtInt i ++ " has no URL".toList), [])
  else
    match remote n attachment.URL with
    | .error err =>
      (attachment,
        some ("failed to fetch attachment from ".toList ++ attachment.URL ++ ": ".toList ++ err),
        [attachment.URL])
    | .ok resp =>
      if resp.StatusCode ≠ 200 then
        (attachment,
          some ("failed to fetch attachment from ".toList ++ attachment.URL
            ++ ": status ".toList ++ fmtInt resp.StatusCode),
          [attachment.URL])
      else
        match resp.Body with
        | .error err =>
          (attachment,
            some ("failed to read attachment body from ".toList ++ attachment.URL
              ++ ": ".toList ++ err),
            [attachment.URL])
        | .ok body =>
          let attachment := { attachment with Body := body }
          let attachment := setContentType resp attachment
          let attachment := setFilename resp i attachment
          (attachment, none, [attachment.URL])

/-- The loop `for i := range data.Attachments` from position `i` on, with `n`
requests issued so far: the attachments as the loop leaves them, the error
returned (if any) and the URLs requested, in order. -/
def fetchFrom (remote : Remote) : Nat → Nat → List Attachment →
    List Attachment × Option GoError × List Str
  | _, _, [] => ([], none, [])
  | i, n, attachment :: rest =>
    match fetchOne remote i n attachment with
    | (attachment, some err, requested) => (attachment :: rest, some err, requested)
    | (attachment, none, requested) =>
      match fetchFrom remote (i + 1) (n + requested.length) rest with
      | (rest, err, later) => (attachment :: rest, err, requested ++ later)

/-- `fetchAttachments` of `sendmail.go`: the message as the call leaves it
(the attachments are changed in place), the returned error (`none` for nil)
and the URLs requested with `http.Get`, in order. -/
def fetchAttachments (remote : Remote) (data : SendMailData) :
    SendMailData × Option GoError × List Str :=
  if data.Attachments.length = 0 then (data, none, [])
  else
    match fetchFrom remote 0 0 data.Attachments with
    | (attachments, err, requested) => ({ data with Attachments := attachments }, err, requested)

/-! ## `sudoSendMail` -/

/-- The block of `sudoSendMail` that fills the body variants (`sendmail.go`,
lines 30-38).  `StripHTML` is `email.StripHTML`, whose source is not part of
the material: it is a parameter. -/
def resolveBody (StripHTML : Str → Str) (data : SendMailData) : SendMailData :=
  if data.Body.length > 0 then
    { data with HTMLBody := data.Body, TextBody := StripHTML data.Body }
  else if data.TextBody.length = 0 ∧ data.HTMLBody.length > 0 then
    { data with TextBody := StripHTML data.HTMLBody }
  else if data.HTMLBody.length = 0 ∧ data.TextBody.length > 0 then
    { data with HTMLBody := data.TextBody }
  else data

/-- What the handler writes to its `http.ResponseWriter`: either
`http.Error(w, error, code)` or `respond(w, code, v)`. -/
inductive Response where
  | Error (error : Str) (code : Nat)
  | respond (code : Nat) (v : Bool)
deriving DecidableEq, Repr

/-- The status code of a response. -/
def Response.code : Response → Nat
  | .Error _ code => code
  | .respond code _ => code

/-- What the handler does to its collaborators, in order. -/
inductive Call where
  | Get (url : Str)
  | Send (data : SendMailData) (err : Option GoError)
  | Extract
  | IncrementMonthlyEmailSent (id : Str)
  | Log (msg : Str)
deriving DecidableEq, Repr

/-- What surrounds one run of `sudoSendMail`: the outcome of `parseBody` on
the request body, the remote side of `http.Get`, `email.StripHTML`, the
answer of `backend.Emailer.Send`, the outcome of `middleware.Extract` (the
tenant id `config.ID`) and the answer of
`backend.DB.IncrementMonthlyEmailSent`. -/
structure Request where
  parseBody : Except GoError SendMailData
  remote : Remote
  StripHTML : Str → Str
  Send : SendMailData → Option GoError
  Extract : Except GoError Str
  IncrementMonthlyEmailSent : Str → Option GoError

/-- `http.StatusBadRequest`. -/
def StatusBadRequest : Nat := 400

/-- `http.StatusInternalServerError`. -/
def StatusInternalServerError : Nat := 500

/-- `http.StatusOK`. -/
def StatusOK : Nat := 200

/-- `sudoSendMail` of `sendmail.go`: the response written and the calls made
to the collaborators, in order. -/
def sudoSendMail (r : Request) : Response × List Call :=
  match r.parseBody with
  | .error err => (Response.Error err StatusBadRequest, [])
  | .ok data =>
    let fetched : SendMailData × Option GoError × List Str :=
      if data.Attachments.length > 0 then fetchAttachments r.remote data else (data, none, [])
    match fetched with
    | (_, some err, requested) =>
      (Response.Error err StatusInternalServerError, requested.map Call.Get)
    | (data, none, requested) =>
      let data := resolveBody r.StripHTML data
      match r.Send data with
      | some err =>
        (Response.Error err StatusInternalServerError,
          requested.map Call.Get ++ [Call.Send data (some err)])
      | none =>
        match r.Extract with
        | .error err =>
          (Response.Error err StatusBadRequest,
            requested.map Call.Get ++ [Call.Send data none, Call.Extract])
        | .ok id =>
          match r.IncrementMonthlyEmailSent id with
          | some err =>
            (Response.respond StatusOK true,
              requested.map Call.Get ++ [Call.Send data none, Call.Extract,
                Call.IncrementMonthlyEmailSent id,
                Call.Log ("error increasing monthly email sent: ".toList ++ " ".toList ++ err)])
          | none =>
            (Response.respond StatusOK true,
              requested.map Call.Get ++ [Call.Send data none, Call.Extract,
                Call.IncrementMonthlyEmailSent id])

/-! ## Hydration as the specification describes it -/

/-- What hydration may and may not touch in one attachment: the URL stays, an
attachment with a body stays as a whole, and a content type or file name that
was supplied stays. -/
def Kept (a a' : Attachment) : Prop :=
  a'.URL = a.URL ∧ (a.Body ≠ [] → a' = a)
    ∧ (a.ContentType ≠ [] → a'.ContentType = a.ContentType)
    ∧ (a.Filename ≠ [] → a'.Filename = a.Filename)

/-- A header value with everything from its first `;` onward removed. -/
def beforeSemicolon (value : Str) : Str := value.takeWhile (fun c => c != ';')

/-- The content type taken from a `Content-Type` header value: the value
itself when it holds no `;`, and otherwise what stands before the first `;`
with the white space around it removed. -/
def contentTypeOf (value : Str) : Str :=
  if ';' ∈ value then TrimSpace (beforeSemicolon value) else value

/-- The text after the first occurrence of `needle`, if there is one. -/
def textAfter (needle : Str) : Str → Option Str
  | [] => if needle = [] then some [] else none
  | c :: s =>
    if startsWith (c :: s) needle then some ((c :: s).drop needle.length)
    else textAfter needle s

/-- The final `/`-separated segment of a URL: the text after its last `/`,
and all of it when it holds none. -/
def lastSegment : Str → Str
  | [] => []
  | c :: s => if '/' ∈ s then lastSegment s else if c = '/' then s else c :: s

/-- A text with its leading double quotes (U+0022) removed. -/
def dropLeadingQuotes : Str → Str
  | [] => []
  | c :: s => if c = Char.ofNat 0x22 then dropLeadingQuotes s else c :: s

/-- A text with the double quotes that surround it removed, at both ends. -/
def withoutQuotes (t : Str) : Str :=
  (dropLeadingQuotes (dropLeadingQuotes t).reverse).reverse

/-- The white space of Unicode (property `White_Space`): U+0009 to U+000D,
U+0020, U+0085, U+00A0, U+1680, U+2000 to U+200A, U+2028, U+2029, U+202F,
U+205F and U+3000. -/
def whiteSpace : List Char :=
  [Char.ofNat 0x09, Char.ofNat 0x0A, Char.ofNat 0x0B, Char.ofNat 0x0C, Char.ofNat 0x0D,
   Char.ofNat 0x20, Char.ofNat 0x85, Char.ofNat 0xA0, Char.ofNat 0x1680,
   Char.ofNat 0x2000, Char.ofNat 0x2001, Char.ofNat 0x2002, Char.ofNat 0x2003,
   Char.ofNat 0x2004, Char.ofNat 0x2005, Char.ofNat 0x2006, Char.ofNat 0x2007,
   Char.ofNat 0x2008, Char.ofNat 0x2009, Char.ofNat 0x200A,
   Char.ofNat 0x2028, Char.ofNat 0x2029, Char.ofNat 0x202F, Char.ofNat 0x205F,
   Char.ofNat 0x3000]

/-- The file name by the priority order of the specification: the text after
`filename=` in the `Content-Disposition` value with the surrounding double
quotes trimmed, when non-empty; otherwise the final segment of the URL cut at
its first `?`, when non-empty; otherwise `attachment_` and the 1-based
position. -/
def filenameOf (cd url : Str) (i : Nat) : Str :=
  let fromHeader :=
    match textAfter "filename=".toList cd with
    | some t => withoutQuotes t
    | none => []
  if fromHeader ≠ [] then fromHeader
  else
    let fromURL := (lastSegment url).takeWhile (fun c => c != '?')
    if fromURL ≠ [] then fromURL else "attachment_".toList ++ fmtInt (i + 1)

/-! ## Sample inputs -/

/-- A message with a text body, an attachment of four octets, an attachment
without body and a transactional flag. -/
def sampleMessage : SendMailData :=
  { From := "a@b.com".toList, FromName := "Al".toList, To := "c@d.com".toList, ToName := [],
    Subject := "S".toList, HTMLBody := [], TextBody := "hi".toList, ReplyTo := [], Body := [],
    Attachments := [⟨[], [72, 105, 33, 10], [], "x.txt".toList⟩, ⟨"u".toList, [], [], []⟩],
    IsTransactional := true }

/-- A message with a valid recipient and no sender address. -/
def noSenderMessage : SendMailData :=
  { From := [], FromName := [], To := "c@d.com".toList, ToName := [], Subject := "S".toList,
    HTMLBody := "<p>hi</p>".toList, TextBody := [], ReplyTo := [], Body := [],
    Attachments := [], IsTransactional := false }

/-- Surroundings in which the relay, the configuration and the API all answer
without error. -/
def sampleEnv : Env :=
  { now := "D".toList, boundary := "B".toList, altBoundary := "A".toList,
    SendMail := fun _ _ _ _ => none, S3Region := "ca-central-1".toList,
    LoadDefaultConfig := fun _ => none, SendRawEmail := fun _ _ => none }

/-- The attachment of the repository's test: a URL and nothing else. -/
def logoAttachment : Attachment :=
  ⟨"https://staticbackend.dev/img/logo-sb-red-text.png".toList, [], [], []⟩

/-- An attachment with neither body nor URL. -/
def bareAttachment : Attachment := ⟨[], [], [], []⟩

/-- A remote side that answers every request with status 200, the content
type `image/png` and four octets. -/
def pngRemote : Remote :=
  fun _ _ => .ok ⟨200, ⟨[("Content-Type".toList, "image/png".toList)]⟩, .ok [137, 80, 78, 71]⟩

/-- A remote side that answers every request with status 200, no header and
an empty body. -/
def emptyRemote : Remote := fun _ _ => .ok ⟨200, ⟨[]⟩, .ok []⟩

/-- The sample message with the test's attachment followed by one that has
neither body nor URL. -/
def hydrationMessage : SendMailData :=
  { sampleMessage with Attachments := [logoAttachment, bareAttachment] }

/-- A remote side whose `Content-Type` value is `image/png` led by a
no-break space (U+00A0), without any `;`. -/
def nbspRemote : Remote :=
  fun _ _ => .ok ⟨200, ⟨[("Content-Type".toList, Char.ofNat 0xA0 :: "image/png".toList)]⟩,
    .ok [137, 80, 78, 71]⟩

/-- A remote side whose `Content-Type` value carries a parameter. -/
def charsetRemote : Remote :=
  fun _ _ => .ok ⟨200, ⟨[("Content-Type".toList, "image/png ; charset=utf-8".toList)]⟩,
    .ok [137, 80, 78, 71]⟩

/-- A run of the handler in which parsing yields the sample message (no
attachment left to fetch), the transport sends, and tenant extraction fails. -/
def lostTenantRequest : Request :=
  { parseBody := .ok { sampleMessage with Attachments := [] },
    remote := pngRemote,
    StripHTML := fun s => s,
    Send := fun _ => none,
    Extract := .error "invalid StaticBackend key".toList,
    IncrementMonthlyEmailSent := fun _ => none }

/-- A run of the handler in which everything succeeds but the quota
increment. -/
def quotaErrorRequest : Request :=
  { parseBody := .ok { sampleMessage with Attachments := [logoAttachment] },
    remote := pngRemote,
    StripHTML := fun s => s,
    Send := fun _ => none,
    Extract := .ok "tenant".toList,
    IncrementMonthlyEmailSent := fun _ => some "db down".toList }

/-- A run of the handler whose message has one attachment with neither body
nor URL. -/
def bareAttachmentRequest : Request :=
  { parseBody := .ok { sampleMessage with Attachments := [bareAttachment] },
    remote := pngRemote,
    StripHTML := fun s => s,
    Send := fun _ => none,
    Extract := .ok "tenant".toList,
    IncrementMonthlyEmailSent := fun _ => none }

/-- A run of the handler whose message has no sender address and whose
transport is the local SMTP variant. -/
def noSenderRequest : Request :=
  { parseBody := .ok noSenderMessage,
    remote := pngRemote,
    StripHTML := fun s => s,
    Send := fun data => (Local.Send sampleEnv data).1,
    Extract := .ok "tenant".toList,
    IncrementMonthlyEmailSent := fun _ => none }

/-- A message with display names for sender and recipient. -/
def namedMessage : SendMailData :=
  { sampleMessage with FromName := "Jane Doe".toList, From := "j@x.com".toList,
                       ToName := "Al".toList, To := "c@d.com".toList }

/-- An attachment whose URL ends in `/`. -/
def dirAttachment : Attachment := ⟨"http://h/dir/".toList, [], [], []⟩

/-- A remote side that answers every request with status 200 and a body whose
read fails. -/
def unreadableRemote : Remote :=
  fun _ _ => .ok ⟨200, ⟨[]⟩, .error "unexpected EOF".toList⟩

/-- A remote side that names the file in a quoted `Content-Disposition`
parameter. -/
def dispositionRemote : Remote :=
  fun _ _ => .ok ⟨200,
    ⟨[("Content-Disposition".toList, "attachment; filename=\"file.pdf\"".toList)]⟩,
    .ok [37, 80, 68, 70]⟩

/-! ## Helper lemmas -/

theorem headerLines_one (v : Str) :
    headerLines (MIMEHeader.empty.Set "Content-Type".toList v)
      = "Content-Type: ".toList ++ v ++ "\r\n".toList := by
  simp [headerLines, sortedEntries, MIMEHeader.Set, MIMEHeader.empty, insertEntry]

theorem headerLines_two (v e : Str) :
    headerLines ((MIMEHeader.empty.Set "Content-Type".toList v).Set
        "Content-Transfer-Encoding".toList e)
      = "Content-Transfer-Encoding: ".toList ++ e ++ "\r\n".toList
        ++ ("Content-Type: ".toList ++ v ++ "\r\n".toList) := by
  simp [headerLines, sortedEntries, MIMEHeader.Set, MIMEHeader.empty, insertEntry, strLt]

theorem headerLines_three (v e d : Str) :
    headerLines (((MIMEHeader.empty.Set "Content-Type".toList v).Set
        "Content-Transfer-Encoding".toList e).Set "Content-Disposition".toList d)
      = "Content-Disposition: ".toList ++ d ++ "\r\n".toList
        ++ ("Content-Transfer-Encoding: ".toList ++ e ++ "\r\n".toList
        ++ ("Content-Type: ".toList ++ v ++ "\r\n".toList)) := by
  simp [headerLines, sortedEntries, MIMEHeader.Set, MIMEHeader.empty, insertEntry, strLt]

theorem wr_boundary (B : Str) (started : Bool) : (wr B started).boundary = B := rfl

theorem CreatePart_wr (B : Str) (started : Bool) (h : MIMEHeader) (buf : Str) :
    (wr B started).CreatePart h buf
      = .ok (wr B true, ⟨false, none⟩,
          buf ++ ((if started then CRLF else []) ++ "--".toList ++ B ++ CRLF ++ headerLines h ++ CRLF)) := by
  cases started <;> simp [wr, Writer.CreatePart, part.close, CRLF]

theorem Close_wr (B : Str) (started : Bool) (buf : Str) :
    ((wr B started).Close buf).1 = buf ++ (CRLF ++ "--".toList ++ B ++ "--".toList ++ CRLF) := by
  cases started <;> simp [wr, Writer.Close, part.close, CRLF]

theorem joinParts_snoc (ps : List Str) (p : Str) :
    joinParts (ps ++ [p]) = joinParts ps ++ (if ps.isEmpty then [] else CRLF) ++ p := by
  induction ps with
  | nil => simp [joinParts]
  | cons q r ih =>
    cases r with
    | nil => simp [joinParts]
    | cons q2 r2 =>
      have e : (q :: q2 :: r2) ++ [p] = q :: q2 :: (r2 ++ [p]) := rfl
      have e2 : (q2 :: r2) ++ [p] = q2 :: (r2 ++ [p]) := rfl
      rw [e, joinParts, ← e2, ih]
      simp [joinParts]

theorem lines76_nil : lines76 [] = [] := by
  rw [lines76]; simp

theorem lines76_cons (s : Str) (h : s ≠ []) : lines76 s = s.take 76 :: lines76 (s.drop 76) := by
  rw [lines76]; simp [h]

theorem writeLines_eq (enc : Str) (fuel : Nat) :
    ∀ (i : Nat) (buf : Str), enc.length - i < fuel →
      writeLines ⟨false, none⟩ enc fuel i buf = some (buf ++ wrapped (enc.drop i)) := by
  induction fuel with
  | zero => intro i buf h; omega
  | succ n ih =>
    intro i buf h
    unfold writeLines
    by_cases hi : i < enc.length
    · have hne : enc.drop i ≠ [] := by
        intro h0
        have := congrArg List.length h0
        simp at this; omega
      have hs : slice enc i (if i + 76 > enc.length then enc.length else i + 76)
          = (enc.drop i).take 76 := by
        unfold slice
        split
        · rw [List.take_of_length_le (by simp), List.take_of_length_le (by simp; omega)]
        · congr 1; omega
      simp only [hi, if_true, hs, part.Write]
      rw [ih (i + 76) _ (by omega)]
      simp [wrapped, lines76_cons _ hne, List.drop_drop, CRLF, Nat.add_comm]
    · have h0 : enc.drop i = [] := List.drop_of_length_le (by omega)
      simp [hi, h0, wrapped, lines76_nil]

theorem writeAttachment_skip (w : Writer) (buf : Str) (a : Attachment) (h : a.Body = []) :
    writeAttachment w buf a = .ok (w, buf) := by
  simp [writeAttachment, h]

theorem writeAttachment_eq (B : Str) (started : Bool) (buf : Str) (a : Attachment)
    (h : a.Body ≠ []) :
    writeAttachment (wr B started) buf a
      = .ok (wr B true, buf ++ ((if started then CRLF else []) ++ attachmentPart B a)) := by
  have hl : a.Body.length ≠ 0 := by
    intro h0; exact h (List.length_eq_zero.mp h0)
  unfold writeAttachment
  rw [if_neg hl]
  simp only [CreatePart_wr, headerLines_three]
  rw [writeLines_eq _ _ 0 _ (by omega)]
  simp [attachmentPart, attachmentHead, CRLF]

theorem writeAttachments_eq (B : Str) (base : Str) (l : List Attachment) :
    ∀ ps : List Str,
      writeAttachments (wr B (!ps.isEmpty)) (base ++ joinParts ps) l
        = .ok (wr B (!(ps ++ attachmentParts B l).isEmpty),
            base ++ joinParts (ps ++ attachmentParts B l)) := by
  induction l with
  | nil => intro ps; simp [writeAttachments, attachmentParts]
  | cons a r ih =>
    intro ps
    unfold writeAttachments
    by_cases h : a.Body = []
    · rw [writeAttachment_skip _ _ _ h]
      simp only []
      rw [ih ps]
      simp [attachmentParts, h]
    · rw [writeAttachment_eq _ _ _ _ h]
      simp only []
      have e : base ++ joinParts ps ++ ((if (!ps.isEmpty) = true then CRLF else []) ++ attachmentPart B a)
          = base ++ joinParts (ps ++ [attachmentPart B a]) := by
        rw [joinParts_snoc]; cases ps <;> simp
      have e2 : wr B true = wr B (!(ps ++ [attachmentPart B a]).isEmpty) := by
        cases ps <;> simp
      rw [e, e2, ih (ps ++ [attachmentPart B a])]
      simp [attachmentParts, h]

theorem writeAlternative_eq (data : SendMailData) (B A buf : Str) :
    writeAlternative data (NewWriter B) A buf
      = .ok (wr B (!(alternativeParts B A data).isEmpty),
          buf ++ joinParts (alternativeParts B A data)) := by
  have hw : NewWriter B = wr B false := rfl
  have ha : NewWriter A = wr A false := rfl
  unfold writeAlternative
  by_cases hb : data.HTMLBody ≠ [] ∨ data.TextBody ≠ []
  · rw [if_pos hb, hw, ha]
    by_cases ht : data.TextBody = [] <;> by_cases hh : data.HTMLBody = []
    · simp [ht, hh] at hb
    all_goals
      simp only [CreatePart_wr, Writer.Boundary, headerLines_one, headerLines_two, ht, hh,
        ne_eq, not_true_eq_false, not_false_eq_true, if_true, if_false, part.Write, Close_wr,
        Bool.false_eq_true, wr_boundary, alternativeParts, alternativePart, bodySubParts,
        bodySubPart, joinParts, CRLF, or_true, true_or, or_false, false_or, List.isEmpty_cons,
        Bool.not_false, List.append_assoc, List.nil_append, List.append_nil,
        List.singleton_append, List.cons_append]
      rfl
  · rw [if_neg hb]
    simp [alternativeParts, hb, joinParts, hw]

/-- The raw message in closed form: the header lines, the Content-Type line of
the outer multipart, the parts joined by CRLF and the outer closing delimiter. -/
theorem BuildRawEmail_eq (data : SendMailData) (now B A : Str) :
    BuildRawEmail data now B A
      = .ok (writeHeaders data now
          ++ ("Content-Type: multipart/mixed; boundary=\"".toList ++ B ++ "\"".toList ++ CRLF ++ CRLF)
          ++ joinParts (alternativeParts B A data ++ attachmentParts B data.Attachments)
          ++ (CRLF ++ "--".toList ++ B ++ "--".toList ++ CRLF)) := by
  unfold BuildRawEmail
  simp only [Writer.Boundary, NewWriter]
  have hw : (⟨B, none⟩ : Writer) = NewWriter B := rfl
  rw [hw, writeAlternative_eq]
  simp only []
  rw [writeAttachments_eq]
  simp only [Close_wr]
  simp [CRLF]

theorem or_eq_add (x y i : Nat) (hx : x % 2 ^ i = 0) (hy : y < 2 ^ i) : x ||| y = x + y := by
  have hx2 : x = 2 ^ i * (x / 2 ^ i) := by
    have := Nat.div_add_mod x (2 ^ i)
    omega
  rw [hx2]
  exact (Nat.mul_add_lt_is_or hy _).symm

theorem and_63 (x : Nat) : x &&& 0x3F = x % 64 := Nat.and_pow_two_sub_one_eq_mod x 6

theorem pack3 (a b c : Nat) (hb : b < 256) (hc : c < 256) :
    a <<< 16 ||| b <<< 8 ||| c = a * 65536 + b * 256 + c := by
  simp only [Nat.shiftLeft_eq]
  rw [or_eq_add (a * 2 ^ 16) (b * 2 ^ 8) 16 (by omega) (by omega),
    or_eq_add _ c 8 (by omega) (by omega)]

theorem pack4 (s0 s1 s2 s3 : Nat) (h1 : s1 < 64) (h2 : s2 < 64) (h3 : s3 < 64) :
    s0 <<< 18 ||| s1 <<< 12 ||| s2 <<< 6 ||| s3 = s0 * 262144 + s1 * 4096 + s2 * 64 + s3 := by
  simp only [Nat.shiftLeft_eq]
  rw [or_eq_add (s0 * 2 ^ 18) (s1 * 2 ^ 12) 18 (by omega) (by omega),
    or_eq_add _ (s2 * 2 ^ 6) 12 (by omega) (by omega),
    or_eq_add _ s3 6 (by omega) (by omega)]

theorem pack4_3 (s0 s1 s2 : Nat) (h1 : s1 < 64) (h2 : s2 < 64) :
    s0 <<< 18 ||| s1 <<< 12 ||| s2 <<< 6 = s0 * 262144 + s1 * 4096 + s2 * 64 := by
  simp only [Nat.shiftLeft_eq]
  rw [or_eq_add (s0 * 2 ^ 18) (s1 * 2 ^ 12) 18 (by omega) (by omega),
    or_eq_add _ (s2 * 2 ^ 6) 12 (by omega) (by omega)]

theorem pack4_2 (s0 s1 : Nat) (h1 : s1 < 64) :
    s0 <<< 18 ||| s1 <<< 12 = s0 * 262144 + s1 * 4096 := by
  simp only [Nat.shiftLeft_eq]
  rw [or_eq_add (s0 * 2 ^ 18) (s1 * 2 ^ 12) 18 (by omega) (by omega)]

theorem decodeChar_encodeChar (n : Nat) (h : n < 64) : decodeChar (encodeChar n) = some n := by
  interval_cases n <;> rfl

theorem encodeChar_mem (n : Nat) : encodeChar n ∈ encodeStd := by
  by_cases h : n < 64
  · interval_cases n <;> decide
  · have : encodeStd.length ≤ n := by
      have : encodeStd.length = 64 := by decide
      omega
    unfold encodeChar
    rw [List.getD_eq_default _ _ this]
    decide

theorem encodeStd_plain : ∀ c ∈ encodeStd, c ≠ '\r' ∧ c ≠ '\n' ∧ c ≠ '=' := by
  decide

theorem encodeChar_ne_pad (n : Nat) : encodeChar n ≠ '=' :=
  (encodeStd_plain _ (encodeChar_mem n)).2.2

theorem decodeQuad_encode (a b c : Byte) :
    decodeQuad (encodeChar ((a.val <<< 16 ||| b.val <<< 8 ||| c.val) >>> 18 &&& 0x3F))
        (encodeChar ((a.val <<< 16 ||| b.val <<< 8 ||| c.val) >>> 12 &&& 0x3F))
        (encodeChar ((a.val <<< 16 ||| b.val <<< 8 ||| c.val) >>> 6 &&& 0x3F))
        (encodeChar ((a.val <<< 16 ||| b.val <<< 8 ||| c.val) &&& 0x3F))
      = some [a, b, c] := by
  have ha := a.isLt
  have hb := b.isLt
  have hc := c.isLt
  rw [pack3 _ _ _ hb hc]
  simp only [and_63, Nat.shiftRight_eq_div_pow]
  unfold decodeQuad
  rw [decodeChar_encodeChar _ (Nat.mod_lt _ (by decide)),
    decodeChar_encodeChar _ (Nat.mod_lt _ (by decide)),
    decodeChar_encodeChar _ (Nat.mod_lt _ (by decide)),
    decodeChar_encodeChar _ (Nat.mod_lt _ (by decide))]
  simp only []
  rw [pack4 _ _ _ _ (Nat.mod_lt _ (by decide)) (Nat.mod_lt _ (by decide))
    (Nat.mod_lt _ (by decide))]
  simp only [Nat.shiftRight_eq_div_pow, byte, Option.some.injEq, List.cons.injEq, and_true]
  refine ⟨Fin.ext ?_, Fin.ext ?_, Fin.ext ?_⟩ <;> simp only [] <;> omega

theorem decodeLast_encode2 (a b : Byte) :
    decodeLast (encodeChar ((a.val <<< 16 ||| b.val <<< 8) >>> 18 &&& 0x3F))
        (encodeChar ((a.val <<< 16 ||| b.val <<< 8) >>> 12 &&& 0x3F))
        (encodeChar ((a.val <<< 16 ||| b.val <<< 8) >>> 6 &&& 0x3F)) '='
      = some [a, b] := by
  have ha := a.isLt
  have hb := b.isLt
  have e : a.val <<< 16 ||| b.val <<< 8 = a.val * 65536 + b.val * 256 := by
    simp only [Nat.shiftLeft_eq]
    rw [or_eq_add (a.val * 2 ^ 16) (b.val * 2 ^ 8) 16 (by omega) (by omega)]
  rw [e]
  simp only [and_63, Nat.shiftRight_eq_div_pow]
  unfold decodeLast
  rw [if_pos rfl, if_neg (encodeChar_ne_pad _)]
  rw [decodeChar_encodeChar _ (Nat.mod_lt _ (by decide)),
    decodeChar_encodeChar _ (Nat.mod_lt _ (by decide)),
    decodeChar_encodeChar _ (Nat.mod_lt _ (by decide))]
  simp only []
  rw [pack4_3 _ _ _ (Nat.mod_lt _ (by decide)) (Nat.mod_lt _ (by decide))]
  simp only [Nat.shiftRight_eq_div_pow, byte, Option.some.injEq, List.cons.injEq, and_true]
  refine ⟨Fin.ext ?_, Fin.ext ?_⟩ <;> simp only [] <;> omega

theorem decodeLast_encode1 (a : Byte) :
    decodeLast (encodeChar ((a.val <<< 16) >>> 18 &&& 0x3F))
        (encodeChar ((a.val <<< 16) >>> 12 &&& 0x3F)) '=' '='
      = some [a] := by
  have ha := a.isLt
  simp only [and_63, Nat.shiftRight_eq_div_pow, Nat.shiftLeft_eq]
  unfold decodeLast
  rw [if_pos rfl, if_pos rfl]
  rw [decodeChar_encodeChar _ (Nat.mod_lt _ (by decide)),
    decodeChar_encodeChar _ (Nat.mod_lt _ (by decide))]
  simp only []
  rw [pack4_2 _ _ (Nat.mod_lt _ (by decide))]
  simp only [Nat.shiftRight_eq_div_pow, byte, Option.some.injEq, List.cons.injEq, and_true]
  refine Fin.ext ?_
  simp only []
  omega

/-- Standard decoding inverts `EncodeToString`. -/
theorem DecodeString_EncodeToString (body : Bytes) :
    DecodeString (EncodeToString body) = some body := by
  induction body using EncodeToString.induct with
  | case1 => rfl
  | case2 a =>
    simp only [EncodeToString, DecodeString]
    exact decodeLast_encode1 a
  | case3 a b =>
    simp only [EncodeToString, DecodeString]
    exact decodeLast_encode2 a b
  | case4 a b c rest ih =>
    simp only [EncodeToString]
    cases hr : EncodeToString rest with
    | nil =>
      rw [hr] at ih
      simp only [DecodeString]
      unfold decodeLast
      rw [if_neg (encodeChar_ne_pad _), decodeQuad_encode]
      cases rest with
      | nil => rfl
      | cons x xs =>
        simp [DecodeString] at ih
    | cons x xs =>
      rw [hr] at ih
      simp only [DecodeString]
      rw [decodeQuad_encode, ih]
      simp

theorem lines76_flatten (n : Nat) : ∀ s : Str, s.length ≤ n → (lines76 s).flatten = s := by
  induction n with
  | zero =>
    intro s h
    have : s = [] := List.length_eq_zero.mp (by omega)
    subst this
    simp [lines76_nil]
  | succ n ih =>
    intro s h
    by_cases hs : s = []
    · subst hs; simp [lines76_nil]
    · rw [lines76_cons s hs, List.flatten_cons, ih (s.drop 76), List.take_append_drop]
      have : 0 < s.length := List.length_pos.mpr hs
      simp only [List.length_drop]
      omega

theorem lines76_mem (n : Nat) :
    ∀ s : Str, s.length ≤ n → ∀ l ∈ lines76 s, ∀ c ∈ l, c ∈ s := by
  induction n with
  | zero =>
    intro s h
    have : s = [] := List.length_eq_zero.mp (by omega)
    subst this
    simp [lines76_nil]
  | succ n ih =>
    intro s h l hl c hc
    by_cases hs : s = []
    · subst hs; simp [lines76_nil] at hl
    · rw [lines76_cons s hs, List.mem_cons] at hl
      rcases hl with hl | hl
      · subst hl; exact List.mem_of_mem_take hc
      · have h0 : 0 < s.length := List.length_pos.mpr hs
        have := ih (s.drop 76) (by simp only [List.length_drop]; omega) l hl c hc
        exact List.mem_of_mem_drop this

theorem lines76_shape (n : Nat) :
    ∀ s : Str, s.length ≤ n → s ≠ [] →
      ∃ init last, lines76 s = init ++ [last] ∧ (∀ l ∈ init, l.length = 76)
        ∧ 1 ≤ last.length ∧ last.length ≤ 76 := by
  induction n with
  | zero =>
    intro s h hs
    exact absurd (List.length_eq_zero.mp (by omega)) hs
  | succ n ih =>
    intro s h hs
    have h0 : 0 < s.length := List.length_pos.mpr hs
    by_cases hd : s.drop 76 = []
    · refine ⟨[], s.take 76, ?_, by simp, ?_, ?_⟩
      · rw [lines76_cons s hs, hd, lines76_nil]; rfl
      · simp only [List.length_take]; omega
      · simp only [List.length_take]; omega
    · obtain ⟨init, last, e, hi, h1, h2⟩ :=
        ih (s.drop 76) (by simp only [List.length_drop]; omega) hd
      refine ⟨s.take 76 :: init, last, ?_, ?_, h1, h2⟩
      · rw [lines76_cons s hs, e]; rfl
      · intro l hl
        rcases List.mem_cons.mp hl with hl | hl
        · subst hl
          have : 76 < s.length := by
            by_contra hc
            exact hd (List.drop_of_length_le (by omega))
          simp only [List.length_take]; omega
        · exact hi l hl

theorem EncodeToString_plain (body : Bytes) :
    ∀ c ∈ EncodeToString body, c ≠ '\r' ∧ c ≠ '\n' := by
  have hp : ∀ n, encodeChar n ≠ '\r' ∧ encodeChar n ≠ '\n' := fun n =>
    ⟨(encodeStd_plain _ (encodeChar_mem n)).1, (encodeStd_plain _ (encodeChar_mem n)).2.1⟩
  induction body using EncodeToString.induct with
  | case1 => simp [EncodeToString]
  | case2 a =>
    intro c hc
    simp only [EncodeToString, List.mem_cons, List.mem_singleton, List.not_mem_nil, or_false] at hc
    rcases hc with h | h | h | h <;> subst h <;> first | exact hp _ | decide
  | case3 a b =>
    intro c hc
    simp only [EncodeToString, List.mem_cons, List.mem_singleton, List.not_mem_nil, or_false] at hc
    rcases hc with h | h | h | h <;> subst h <;> first | exact hp _ | decide
  | case4 a b c rest ih =>
    intro d hd
    simp only [EncodeToString, List.mem_cons] at hd
    rcases hd with h | h | h | h | h
    · subst h; exact hp _
    · subst h; exact hp _
    · subst h; exact hp _
    · subst h; exact hp _
    · exact ih d h

theorem EncodeToString_ne_nil (body : Bytes) (h : body ≠ []) : EncodeToString body ≠ [] := by
  match body, h with
  | [_], _ => simp [EncodeToString]
  | [_, _], _ => simp [EncodeToString]
  | _ :: _ :: _ :: _, _ => simp [EncodeToString]

theorem removeCRLF_line (l : Str) (hl : '\r' ∉ l) (rest : Str) :
    removeCRLF (l ++ CRLF ++ rest) = l ++ removeCRLF rest := by
  induction l with
  | nil =>
    show removeCRLF ('\r' :: '\n' :: rest) = removeCRLF rest
    simp [removeCRLF]
  | cons c r ih =>
    have hc : c ≠ '\r' := fun h => hl (by simp [h])
    have hr : '\r' ∉ r := fun h => hl (List.mem_cons_of_mem _ h)
    have ih := ih hr
    cases r with
    | nil =>
      show removeCRLF (c :: '\r' :: '\n' :: rest) = c :: removeCRLF rest
      rw [removeCRLF, if_neg (by simp [hc])]
      simp [removeCRLF]
    | cons d r2 =>
      show removeCRLF (c :: d :: (r2 ++ CRLF ++ rest)) = c :: d :: (r2 ++ removeCRLF rest)
      rw [removeCRLF, if_neg (by simp [hc])]
      congr 1

theorem removeCRLF_lines (ls : List Str) (h : ∀ l ∈ ls, '\r' ∉ l) :
    removeCRLF ((ls.map (fun l => l ++ CRLF)).flatten) = ls.flatten := by
  induction ls with
  | nil => simp [removeCRLF]
  | cons l r ih =>
    have := removeCRLF_line l (h l (by simp)) ((r.map (fun l => l ++ CRLF)).flatten)
    simp only [List.map_cons, List.flatten_cons]
    rw [this, ih (fun l hl => h l (List.mem_cons_of_mem _ hl))]

theorem joinParts_split (xs : List Str) (p : Str) (ys : List Str) :
    joinParts (xs ++ p :: ys)
      = joinParts xs ++ (if xs.isEmpty then [] else CRLF) ++ p
        ++ (if ys.isEmpty then [] else CRLF ++ joinParts ys) := by
  induction xs with
  | nil =>
    cases ys with
    | nil => simp [joinParts]
    | cons y r => simp [joinParts]
  | cons x r ih =>
    cases r with
    | nil =>
      simp only [List.nil_append] at ih
      have e : joinParts ([x] ++ p :: ys) = x ++ CRLF ++ joinParts (p :: ys) := rfl
      rw [e, ih]
      simp [joinParts]
    | cons x2 r2 =>
      have e : (x :: x2 :: r2) ++ p :: ys = x :: x2 :: (r2 ++ p :: ys) := rfl
      have e2 : (x2 :: r2) ++ p :: ys = x2 :: (r2 ++ p :: ys) := rfl
      rw [e, joinParts, ← e2, ih]
      simp [joinParts]

theorem attachmentParts_split (B : Str) (l1 l2 : List Attachment) (a : Attachment)
    (h : a.Body ≠ []) :
    attachmentParts B (l1 ++ a :: l2)
      = attachmentParts B l1 ++ attachmentPart B a :: attachmentParts B l2 := by
  simp [attachmentParts, List.filter_append, h]

theorem joinParts_attachments_head (B : Str) (l : List Attachment)
    (h : attachmentParts B l ≠ []) :
    ∃ t, joinParts (attachmentParts B l) = "--".toList ++ B ++ t := by
  cases hp : attachmentParts B l with
  | nil => exact absurd hp h
  | cons p r =>
    have hm : p ∈ attachmentParts B l := by rw [hp]; simp
    simp only [attachmentParts, List.mem_map] at hm
    obtain ⟨a, _, rfl⟩ := hm
    cases r with
    | nil =>
      simp only [joinParts, attachmentPart, attachmentHead, List.append_assoc]
      exact ⟨_, rfl⟩
    | cons q r2 =>
      simp only [joinParts, attachmentPart, attachmentHead, List.append_assoc]
      exact ⟨_, rfl⟩

/-- The part of an attachment with a body sits in the output between whatever
precedes it and the next delimiter of the outer boundary. -/
theorem attachment_in_output (data : SendMailData) (now B A : Str) (l1 l2 : List Attachment)
    (a : Attachment) (hs : data.Attachments = l1 ++ a :: l2) (hb : a.Body ≠ []) :
    ∃ pre post, BuildRawEmail data now B A
      = .ok (pre ++ attachmentPart B a ++ (CRLF ++ "--".toList ++ B ++ post)) := by
  rw [BuildRawEmail_eq, hs, attachmentParts_split B l1 l2 a hb,
    (List.append_assoc (alternativeParts B A data) (attachmentParts B l1)
      (attachmentPart B a :: attachmentParts B l2)).symm, joinParts_split]
  by_cases h2 : attachmentParts B l2 = []
  · refine ⟨(writeHeaders data now
      ++ ("Content-Type: multipart/mixed; boundary=\"".toList ++ B ++ "\"".toList ++ CRLF ++ CRLF)
      ++ (joinParts (alternativeParts B A data ++ attachmentParts B l1)
        ++ (if (alternativeParts B A data ++ attachmentParts B l1).isEmpty then [] else CRLF))), "--".toList ++ CRLF, ?_⟩
    simp only [h2, List.isEmpty_nil, if_true, List.append_nil, List.append_assoc]
  · obtain ⟨t, ht⟩ := joinParts_attachments_head B l2 h2
    have he : (attachmentParts B l2).isEmpty = false := by
      cases h : attachmentParts B l2 with
      | nil => exact absurd h h2
      | cons _ _ => rfl
    refine ⟨(writeHeaders data now
      ++ ("Content-Type: multipart/mixed; boundary=\"".toList ++ B ++ "\"".toList ++ CRLF ++ CRLF)
      ++ (joinParts (alternativeParts B A data ++ attachmentParts B l1)
        ++ (if (alternativeParts B A data ++ attachmentParts B l1).isEmpty then [] else CRLF))), t ++ (CRLF ++ "--".toList ++ B ++ "--".toList ++ CRLF), ?_⟩
    simp only [he, Bool.false_eq_true, if_false, ht, List.append_assoc]

theorem joinParts_cons (p : Str) (ps : List Str) :
    joinParts (p :: ps) = p ++ (ps.map (fun q => CRLF ++ q)).flatten := by
  induction ps generalizing p with
  | nil => simp [joinParts]
  | cons q r ih =>
    rw [joinParts, ih q]
    simp

theorem bodySubParts_last (A : Str) (data : SendMailData)
    (h : data.HTMLBody ≠ [] ∨ data.TextBody ≠ []) :
    ∃ front, joinParts (bodySubParts A data)
      = front ++ (if data.HTMLBody ≠ []
          then bodySubPart A "text/html; charset=UTF-8".toList data.HTMLBody
          else bodySubPart A "text/plain; charset=UTF-8".toList data.TextBody) := by
  by_cases ht : data.TextBody = [] <;> by_cases hh : data.HTMLBody = []
  · simp [ht, hh] at h
  · exact ⟨[], by simp [bodySubParts, ht, hh, joinParts]⟩
  · exact ⟨[], by simp [bodySubParts, ht, hh, joinParts]⟩
  · exact ⟨bodySubPart A "text/plain; charset=UTF-8".toList data.TextBody ++ CRLF,
      by simp [bodySubParts, ht, hh, joinParts]⟩

set_option maxRecDepth 20000 in
/-- The raw message of the sample message, written out: what the code yields
on a message with a text body, one attachment with a body and one without. -/
theorem BuildRawEmail_sample :
    BuildRawEmail sampleMessage "D".toList "B".toList "A".toList
      = .ok ("From: Al <a@b.com>\r\nTo: c@d.com\r\nReply-To: a@b.com\r\nSubject: S\r\n"
          ++ "Date: D\r\nMIME-Version: 1.0\r\nX-Transactional: true\r\nPrecedence: bulk\r\n"
          ++ "Content-Type: multipart/mixed; boundary=\"B\"\r\n\r\n"
          ++ "--B\r\nContent-Type: multipart/alternative; boundary=\"A\"\r\n\r\n"
          ++ "--A\r\nContent-Transfer-Encoding: quoted-printable\r\n"
          ++ "Content-Type: text/plain; charset=UTF-8\r\n\r\nhi"
          ++ "\r\n--A--\r\n"
          ++ "\r\n--B\r\nContent-Disposition: attachment; filename=\"x.txt\"\r\n"
          ++ "Content-Transfer-Encoding: base64\r\n"
          ++ "Content-Type: application/octet-stream\r\n\r\nSGkhCg==\r\n"
          ++ "\r\n--B--\r\n").toList := by
  rfl

theorem startsWith_single (c d : Char) (s : Str) : startsWith (d :: s) [c] = (d == c) := by
  cases s <;> simp [startsWith]

/-- `strings.Index` for a one-character needle: the position of the first
occurrence when there is one, -1 when there is none. -/
theorem indexFrom_single (c : Char) (s : Str) :
    ∀ i : Nat,
      (∀ pre post, s = pre ++ c :: post → c ∉ pre →
        indexFrom [c] s i = ((i + pre.length : Nat) : Int))
      ∧ (c ∉ s → indexFrom [c] s i = -1) := by
  induction s with
  | nil =>
    intro i
    refine ⟨fun pre post h _ => ?_, fun _ => by simp [indexFrom]⟩
    cases pre <;> simp at h
  | cons d r ih =>
    intro i
    constructor
    · intro pre post h hp
      cases pre with
      | nil =>
        simp only [List.nil_append, List.cons.injEq] at h
        obtain ⟨rfl, _⟩ := h
        simp [indexFrom, startsWith_single]
      | cons e pre2 =>
        simp only [List.cons_append, List.cons.injEq] at h
        obtain ⟨rfl, h2⟩ := h
        have hne : ¬ (d = c) := fun hc => hp (by simp [hc])
        have hp2 : c ∉ pre2 := fun hc => hp (List.mem_cons_of_mem _ hc)
        rw [indexFrom, startsWith_single]
        simp only [beq_iff_eq, hne, if_false]
        rw [(ih (i + 1)).1 pre2 post h2 hp2]
        simp only [List.length_cons]
        congr 1
        omega
    · intro hn
      have hne : ¬ (d = c) := fun hc => hn (by simp [hc])
      have hr : c ∉ r := fun hc => hn (List.mem_cons_of_mem _ hc)
      rw [indexFrom, startsWith_single]
      simp only [beq_iff_eq, hne, if_false]
      exact (ih (i + 1)).2 hr

theorem Index_first (c : Char) (pre post : Str) (h : c ∉ pre) :
    Index (pre ++ c :: post) [c] = (pre.length : Int) := by
  have := (indexFrom_single c (pre ++ c :: post) 0).1 pre post rfl h
  simpa [Index] using this

theorem Contains_single (c : Char) (s : Str) : Contains s [c] = true ↔ c ∈ s := by
  constructor
  · intro h
    by_contra hn
    have := (indexFrom_single c s 0).2 hn
    simp [Contains, Index, this] at h
  · intro h
    obtain ⟨pre, post, e, hp⟩ : ∃ pre post, s = pre ++ c :: post ∧ c ∉ pre := by
      induction s with
      | nil => simp at h
      | cons d r ih =>
        by_cases hd : d = c
        · exact ⟨[], r, by simp [hd], by simp⟩
        · have hr : c ∈ r := by
            rcases List.mem_cons.mp h with h | h
            · exact absurd h.symm hd
            · exact h
          obtain ⟨pre, post, e, hp⟩ := ih hr
          refine ⟨d :: pre, post, by simp [e], ?_⟩
          intro hc
          rcases List.mem_cons.mp hc with hc | hc
          · exact hd hc.symm
          · exact hp hc
    subst e
    simp [Contains, Index_first c pre post hp]

theorem dropWhile_stop (p : Char → Bool) (l : Str) (c : Char) (r : Str) (h : p c = false) :
    (l ++ c :: r).dropWhile p = l.dropWhile p ++ c :: r := by
  induction l with
  | nil => simp [List.dropWhile, h]
  | cons d t ih =>
    by_cases hd : p d = true
    · simp [List.dropWhile, hd, ih]
    · simp [List.dropWhile, hd]

theorem mem_dropWhile (p : Char → Bool) (l : Str) (c : Char) (h : c ∈ l.dropWhile p) : c ∈ l := by
  induction l with
  | nil => simp at h
  | cons d t ih =>
    by_cases hd : p d = true
    · simp only [List.dropWhile, hd] at h
      exact List.mem_cons_of_mem _ (ih h)
    · simp only [List.dropWhile, hd] at h
      exact h

/-- Trimming leaves a bracketed middle in place: only the space before the
first `<` and after the first following `>` can go. -/
theorem TrimSpace_bracketed (pre mid post : Str) :
    TrimSpace (pre ++ '<' :: mid ++ '>' :: post)
      = pre.dropWhile isSpace ++ '<' :: mid ++ '>' :: (post.reverse.dropWhile isSpace).reverse := by
  unfold TrimSpace
  have e1 : pre ++ '<' :: mid ++ '>' :: post = pre ++ '<' :: (mid ++ '>' :: post) := by simp
  rw [e1, dropWhile_stop isSpace pre '<' _ (by decide)]
  have e2 : (pre.dropWhile isSpace ++ '<' :: (mid ++ '>' :: post)).reverse
      = post.reverse ++ '>' :: (pre.dropWhile isSpace ++ '<' :: mid).reverse := by simp
  rw [e2, dropWhile_stop isSpace post.reverse '>' _ (by decide)]
  simp

theorem mem_TrimSpace (s : Str) (c : Char) (h : c ∈ TrimSpace s) : c ∈ s := by
  unfold TrimSpace at h
  have h1 := List.mem_reverse.mp h
  have h2 := mem_dropWhile _ _ _ h1
  have h3 := List.mem_reverse.mp h2
  exact mem_dropWhile _ _ _ h3

theorem Contains_single_false (c : Char) (s : Str) (h : c ∉ s) : Contains s [c] = false := by
  cases hC : Contains s [c]
  · rfl
  · exact absurd ((Contains_single c s).mp hC) h

/-- Trimming around a character that is not white space: only what stands
before and after it is touched. -/
theorem TrimSpace_around (pre post : Str) (c : Char) (hc : isSpace c = false) :
    TrimSpace (pre ++ c :: post)
      = pre.dropWhile isSpace ++ c :: (post.reverse.dropWhile isSpace).reverse := by
  unfold TrimSpace
  rw [dropWhile_stop isSpace pre c _ hc]
  have e2 : (pre.dropWhile isSpace ++ c :: post).reverse
      = post.reverse ++ c :: (pre.dropWhile isSpace).reverse := by simp
  rw [e2, dropWhile_stop isSpace post.reverse c _ hc]
  simp

theorem indexFrom_single_skip (c : Char) (a rest : Str) (h : c ∉ a) :
    ∀ i : Nat, indexFrom [c] (a ++ rest) i = indexFrom [c] rest (i + a.length) := by
  induction a with
  | nil => intro i; rfl
  | cons d t ih =>
    intro i
    have hne : ¬ (d = c) := fun hc => h (by simp [hc])
    have ht : c ∉ t := fun hc => h (List.mem_cons_of_mem _ hc)
    show indexFrom [c] (d :: (t ++ rest)) i = _
    rw [indexFrom, startsWith_single]
    simp only [beq_iff_eq, hne, if_false]
    rw [ih ht (i + 1)]
    simp only [List.length_cons]
    congr 1
    omega

theorem indexFrom_single_range (c : Char) (s : Str) :
    ∀ i : Nat, indexFrom [c] s i = -1 ∨ (i : Int) ≤ indexFrom [c] s i := by
  induction s with
  | nil => intro i; left; simp [indexFrom]
  | cons d t ih =>
    intro i
    rw [indexFrom, startsWith_single]
    by_cases hd : d = c
    · right; simp [hd]
    · simp only [beq_iff_eq, hd, if_false]
      rcases ih (i + 1) with h | h
      · left; exact h
      · right
        have : (i : Int) ≤ ((i + 1 : Nat) : Int) := by exact_mod_cast Nat.le_succ i
        exact le_trans this h

theorem setContentType_URL (resp : HTTPResponse) (a : Attachment) :
    (setContentType resp a).URL = a.URL := by
  unfold setContentType
  simp only []
  split_ifs <;> rfl

theorem setContentType_Body (resp : HTTPResponse) (a : Attachment) :
    (setContentType resp a).Body = a.Body := by
  unfold setContentType
  simp only []
  split_ifs <;> rfl

theorem setContentType_Filename (resp : HTTPResponse) (a : Attachment) :
    (setContentType resp a).Filename = a.Filename := by
  unfold setContentType
  simp only []
  split_ifs <;> rfl

theorem setContentType_kept (resp : HTTPResponse) (a : Attachment) (h : a.ContentType ≠ []) :
    setContentType resp a = a := by
  unfold setContentType
  rw [if_neg h]

theorem setFilename_kept (resp : HTTPResponse) (i : Nat) (a : Attachment) (h : a.Filename ≠ []) :
    setFilename resp i a = a := by
  unfold setFilename
  rw [if_neg h]

theorem setFilename_others (resp : HTTPResponse) (i : Nat) (a : Attachment) :
    (setFilename resp i a).URL = a.URL ∧ (setFilename resp i a).Body = a.Body
      ∧ (setFilename resp i a).ContentType = a.ContentType := by
  unfold setFilename
  simp only []
  split_ifs <;> (try split) <;> (try split_ifs) <;> simp

/-- The four ways one round of the loop can go: the attachment has a body and
is skipped; it has neither body nor URL; its fetch fails after the request;
or the fetch succeeds and the attachment is hydrated. -/
theorem fetchOne_cases (remote : Remote) (i n : Nat) (a : Attachment) :
    (a.Body ≠ [] ∧ fetchOne remote i n a = (a, none, []))
    ∨ (a.Body = [] ∧ a.URL = []
        ∧ fetchOne remote i n a
          = (a, some ("attachment ".toList ++ fmtInt i ++ " has no URL".toList), []))
    ∨ (a.Body = [] ∧ a.URL ≠ [] ∧ ∃ err, fetchOne remote i n a = (a, some err, [a.URL]))
    ∨ (a.Body = [] ∧ a.URL ≠ [] ∧ ∃ resp body, remote n a.URL = .ok resp
        ∧ resp.StatusCode = 200 ∧ resp.Body = .ok body
        ∧ fetchOne remote i n a
          = (setFilename resp i (setContentType resp { a with Body := body }), none, [a.URL])) := by
  by_cases hb : a.Body = []
  · have hl : ¬ a.Body.length > 0 := by simp [hb]
    by_cases hu : a.URL = []
    · right; left
      refine ⟨hb, hu, ?_⟩
      unfold fetchOne
      rw [if_neg hl, if_pos hu]
    · right; right
      unfold fetchOne
      rw [if_neg hl, if_neg hu]
      cases hr : remote n a.URL with
      | error err => left; exact ⟨hb, hu, _, rfl⟩
      | ok resp =>
        simp only []
        by_cases hs : resp.StatusCode = 200
        · rw [if_neg (not_not.mpr hs)]
          cases hbody : resp.Body with
          | error err => left; exact ⟨hb, hu, _, rfl⟩
          | ok body =>
            right
            refine ⟨hb, hu, resp, body, rfl, hs, hbody, ?_⟩
            simp only [(setFilename_others resp i _).1, setContentType_URL]
        · rw [if_pos hs]
          left; exact ⟨hb, hu, _, rfl⟩
  · left
    have hl : a.Body.length > 0 := List.length_pos.mpr hb
    refine ⟨hb, ?_⟩
    unfold fetchOne
    rw [if_pos hl]

theorem Kept_refl (a : Attachment) : Kept a a :=
  ⟨rfl, fun _ => rfl, fun _ => rfl, fun _ => rfl⟩

theorem fetchOne_Kept (remote : Remote) (i n : Nat) (a : Attachment) :
    Kept a (fetchOne remote i n a).1 := by
  rcases fetchOne_cases remote i n a with ⟨_, h⟩ | ⟨_, _, h⟩ | ⟨_, _, _, h⟩
    | ⟨hb, _, resp, body, _, _, _, h⟩
  · rw [h]; exact Kept_refl a
  · rw [h]; exact Kept_refl a
  · rw [h]; exact Kept_refl a
  · rw [h]
    refine ⟨?_, fun hn => absurd hb hn, ?_, ?_⟩
    · simp only [(setFilename_others resp i _).1, setContentType_URL]
    · intro hc
      rw [(setFilename_others resp i _).2.2,
        setContentType_kept resp { a with Body := body } hc]
    · intro hf
      have : (setContentType resp { a with Body := body }).Filename ≠ [] := by
        rw [setContentType_Filename]; exact hf
      rw [setFilename_kept resp i _ this, setContentType_Filename]

theorem fetchOne_requested (remote : Remote) (i n : Nat) (a : Attachment) :
    (fetchOne remote i n a).2.2 = []
    ∨ (a.Body = [] ∧ a.URL ≠ [] ∧ (fetchOne remote i n a).2.2 = [a.URL]) := by
  rcases fetchOne_cases remote i n a with ⟨_, h⟩ | ⟨_, _, h⟩ | ⟨hb, hu, _, h⟩
    | ⟨hb, hu, _, _, _, _, _, h⟩
  · left; rw [h]
  · left; rw [h]
  · right; rw [h]; exact ⟨hb, hu, rfl⟩
  · right; rw [h]; exact ⟨hb, hu, rfl⟩

theorem fetchFrom_cons (remote : Remote) (i n : Nat) (a : Attachment) (rest : List Attachment) :
    fetchFrom remote i n (a :: rest)
      = match (fetchOne remote i n a).2.1 with
        | some err => ((fetchOne remote i n a).1 :: rest, some err, (fetchOne remote i n a).2.2)
        | none =>
          ((fetchOne remote i n a).1
              :: (fetchFrom remote (i + 1) (n + (fetchOne remote i n a).2.2.length) rest).1,
            (fetchFrom remote (i + 1) (n + (fetchOne remote i n a).2.2.length) rest).2.1,
            (fetchOne remote i n a).2.2
              ++ (fetchFrom remote (i + 1) (n + (fetchOne remote i n a).2.2.length) rest).2.2) := by
  rw [fetchFrom]
  rcases hf : fetchOne remote i n a with ⟨a', err, req⟩
  cases err <;> rfl

theorem fetchFrom_Kept (remote : Remote) (l : List Attachment) :
    ∀ i n, List.Forall₂ Kept l (fetchFrom remote i n l).1 := by
  induction l with
  | nil => intro i n; exact List.Forall₂.nil
  | cons a rest ih =>
    intro i n
    rw [fetchFrom_cons]
    cases (fetchOne remote i n a).2.1 with
    | some err =>
      refine List.Forall₂.cons (fetchOne_Kept remote i n a) ?_
      exact List.forall₂_same.mpr (fun x _ => Kept_refl x)
    | none => exact List.Forall₂.cons (fetchOne_Kept remote i n a) (ih _ _)

theorem fetchFrom_requested (remote : Remote) (l : List Attachment) :
    ∀ i n, ∃ rest, (l.filter (fun a => decide (a.Body = []))).map (fun a => a.URL)
      = (fetchFrom remote i n l).2.2 ++ rest := by
  induction l with
  | nil => intro i n; exact ⟨[], rfl⟩
  | cons a r ih =>
    intro i n
    rw [fetchFrom_cons]
    rcases fetchOne_cases remote i n a with ⟨hb, h⟩ | ⟨_, _, h⟩ | ⟨hb, _, err, h⟩
      | ⟨hb, _, _, _, _, _, _, h⟩
    · rw [h]
      obtain ⟨t, ht⟩ := ih (i + 1) (n + 0)
      refine ⟨t, ?_⟩
      simp only [List.filter_cons, hb, decide_False, Bool.false_eq_true, if_false,
        List.length_nil, List.nil_append]
      exact ht
    · rw [h]; exact ⟨_, rfl⟩
    · rw [h]
      refine ⟨(r.filter (fun a => decide (a.Body = []))).map (fun a => a.URL), ?_⟩
      simp [List.filter_cons, hb]
    · rw [h]
      obtain ⟨t, ht⟩ := ih (i + 1) (n + 1)
      refine ⟨t, ?_⟩
      simp only [List.filter_cons, hb, decide_True, if_true, List.map_cons, List.length_singleton,
        List.singleton_append, List.cons_append, List.nil_append]
      rw [ht]

theorem fetchAttachments_eq (remote : Remote) (data : SendMailData) :
    fetchAttachments remote data
      = ({ data with Attachments := (fetchFrom remote 0 0 data.Attachments).1 },
          (fetchFrom remote 0 0 data.Attachments).2.1,
          (fetchFrom remote 0 0 data.Attachments).2.2) := by
  unfold fetchAttachments
  by_cases h : data.Attachments.length = 0
  · rw [if_pos h]
    have h0 : data.Attachments = [] := List.length_eq_zero.mp h
    rw [h0]
    cases data
    simp only [fetchFrom] at *
    simp only [h0]
  · rw [if_neg h]

theorem fetchFrom_length (remote : Remote) (l : List Attachment) (i n : Nat) :
    (fetchFrom remote i n l).1.length = l.length :=
  (List.Forall₂.length_eq (fetchFrom_Kept remote l i n)).symm

/-- The loop over a list in two pieces: when the first piece goes through
without error, the loop carries on with the second piece from the position
and the request count reached. -/
theorem fetchFrom_append (remote : Remote) (l1 l2 : List Attachment) :
    ∀ i n, (fetchFrom remote i n l1).2.1 = none →
      fetchFrom remote i n (l1 ++ l2)
        = ((fetchFrom remote i n l1).1
              ++ (fetchFrom remote (i + l1.length)
                    (n + (fetchFrom remote i n l1).2.2.length) l2).1,
            (fetchFrom remote (i + l1.length) (n + (fetchFrom remote i n l1).2.2.length) l2).2.1,
            (fetchFrom remote i n l1).2.2
              ++ (fetchFrom remote (i + l1.length)
                    (n + (fetchFrom remote i n l1).2.2.length) l2).2.2) := by
  induction l1 with
  | nil => intro i n _; simp [fetchFrom]
  | cons a r ih =>
    intro i n h
    rw [fetchFrom_cons] at h
    rw [List.cons_append, fetchFrom_cons, fetchFrom_cons]
    cases he : (fetchOne remote i n a).2.1 with
    | some err => rw [he] at h; cases h
    | none =>
      rw [he] at h
      simp only [] at h ⊢
      rw [ih (i + 1) _ h]
      simp only [List.length_cons, List.length_append, List.cons_append, List.append_assoc]
      have e1 : i + 1 + r.length = i + (r.length + 1) := by omega
      have e2 : ∀ x y : Nat, n + x + y = n + (x + y) := fun x y => by omega
      rw [e1, e2]

/-- When the loop ends in an error at some point, what lies behind that point
is left as it was: the loop over a longer list ends in the same error. -/
theorem fetchFrom_append_error (remote : Remote) (l1 l2 : List Attachment) :
    ∀ i n err, (fetchFrom remote i n l1).2.1 = some err →
      (fetchFrom remote i n (l1 ++ l2)).2.1 = some err := by
  induction l1 with
  | nil => intro i n err h; simp [fetchFrom] at h
  | cons a r ih =>
    intro i n err h
    rw [fetchFrom_cons] at h
    rw [List.cons_append, fetchFrom_cons]
    cases he : (fetchOne remote i n a).2.1 with
    | some e => rw [he] at h; exact h
    | none =>
      rw [he] at h
      exact ih _ _ err h

theorem takeWhile_ne_stop (c : Char) (pre post : Str) (h : c ∉ pre) :
    (pre ++ c :: post).takeWhile (fun d => d != c) = pre := by
  induction pre with
  | nil => simp [List.takeWhile]
  | cons d t ih =>
    have hne : d ≠ c := fun hc => h (by simp [hc])
    have ht : c ∉ t := fun hc => h (List.mem_cons_of_mem _ hc)
    have hb : (d != c) = true := by simp [hne]
    simp [List.takeWhile_cons, hb, ih ht]

theorem takeWhile_ne_all (c : Char) (s : Str) (h : c ∉ s) :
    s.takeWhile (fun d => d != c) = s := by
  induction s with
  | nil => rfl
  | cons d t ih =>
    have hne : d ≠ c := fun hc => h (by simp [hc])
    have ht : c ∉ t := fun hc => h (List.mem_cons_of_mem _ hc)
    have hb : (d != c) = true := by simp [hne]
    simp [List.takeWhile_cons, hb, ih ht]

theorem first_split (c : Char) (s : Str) (h : c ∈ s) :
    ∃ pre post, s = pre ++ c :: post ∧ c ∉ pre := by
  induction s with
  | nil => simp at h
  | cons d r ih =>
    by_cases hd : d = c
    · exact ⟨[], r, by simp [hd], by simp⟩
    · have hr : c ∈ r := by
        rcases List.mem_cons.mp h with h | h
        · exact absurd h.symm hd
        · exact h
      obtain ⟨pre, post, e, hp⟩ := ih hr
      refine ⟨d :: pre, post, by simp [e], ?_⟩
      intro hc
      rcases List.mem_cons.mp hc with hc | hc
      · exact hd hc.symm
      · exact hp hc

/-- Cutting at the position `strings.Index` finds for a character is cutting
before its first occurrence; without an occurrence nothing is cut. -/
theorem cut_at_Index (c : Char) (s : Str) :
    (if Index s [c] ≠ -1 then s.take (Index s [c]).toNat else s)
      = s.takeWhile (fun d => d != c) := by
  by_cases h : c ∈ s
  · obtain ⟨pre, post, rfl, hp⟩ := first_split c s h
    rw [Index_first c pre post hp, takeWhile_ne_stop c pre post hp]
    have hne : ((pre.length : Nat) : Int) ≠ -1 := by omega
    rw [if_pos hne, Int.toNat_ofNat, List.take_left']
    rfl
  · have := (indexFrom_single c s 0).2 h
    rw [Index, this, takeWhile_ne_all c s h]
    simp

theorem Index_single_ne (c : Char) (s : Str) : Index s [c] ≠ -1 ↔ c ∈ s := by
  constructor
  · intro h
    by_contra hn
    exact h ((indexFrom_single c s 0).2 hn)
  · intro h
    obtain ⟨pre, post, rfl, hp⟩ := first_split c s h
    rw [Index_first c pre post hp]
    omega

theorem setContentType_eq (resp : HTTPResponse) (a : Attachment) (h : a.ContentType = []) :
    (setContentType resp a).ContentType
      = contentTypeOf (resp.Header.Get "Content-Type".toList) := by
  have e : ";".toList = [';'] := rfl
  unfold setContentType contentTypeOf beforeSemicolon
  rw [if_pos h]
  simp only [e]
  by_cases hv : resp.Header.Get "Content-Type".toList = []
  · rw [hv]
    simp [h]
  · rw [if_pos hv]
    by_cases hs : ';' ∈ resp.Header.Get "Content-Type".toList
    · have hi := (Index_single_ne ';' _).mpr hs
      have hc := cut_at_Index ';' (resp.Header.Get "Content-Type".toList)
      rw [if_pos hi] at hc
      simp only [hi, ne_eq, not_false_eq_true, if_true, hs, hc]
    · have hi : ¬ (Index (resp.Header.Get "Content-Type".toList) [';'] ≠ -1) :=
        fun hc => hs ((Index_single_ne ';' _).mp hc)
      simp only [hi, if_false, hs]

theorem Header_Get_absent (h : Header) (key : Str) (ha : ∀ e ∈ h.entries, e.1 ≠ key) :
    h.Get key = [] := by
  unfold Header.Get
  have : h.entries.find? (fun e => e.1 == key) = none := by
    rw [List.find?_eq_none]
    intro e he
    simpa using ha e he
  rw [this]

/-- Where a hydrated attachment ends up: when the attachments before it go
through without error and its own fetch is answered with status 200 and a
readable body, the list left by `fetchAttachments` holds at its position the
attachment with that body, then the content type and the file name set. -/
theorem fetchAttachments_at (remote : Remote) (data : SendMailData)
    (l1 l2 : List Attachment) (a : Attachment) (resp : HTTPResponse) (body : Bytes)
    (hs : data.Attachments = l1 ++ a :: l2) (hb : a.Body = []) (hu : a.URL ≠ [])
    (hprev : (fetchAttachments remote { data with Attachments := l1 }).2.1 = none)
    (hget : remote (fetchAttachments remote { data with Attachments := l1 }).2.2.length a.URL
      = .ok resp)
    (hst : resp.StatusCode = 200) (hbody : resp.Body = .ok body) :
    ∃ l1' l2', (fetchAttachments remote data).1.Attachments
        = l1' ++ setFilename resp l1.length (setContentType resp { a with Body := body }) :: l2'
      ∧ l1'.length = l1.length := by
  rw [fetchAttachments_eq] at hprev hget ⊢
  simp only [] at hprev hget ⊢
  rw [hs, fetchFrom_append remote l1 (a :: l2) 0 0 hprev, fetchFrom_cons]
  simp only [Nat.zero_add]
  rcases fetchOne_cases remote l1.length (fetchFrom remote 0 0 l1).2.2.length a
    with ⟨h, _⟩ | ⟨_, h, _⟩ | ⟨_, _, err, h⟩ | ⟨_, _, resp', body', hr, _, hbody', h⟩
  · exact absurd hb h
  · exact absurd h hu
  · exfalso
    have h2 : (fetchOne remote l1.length (fetchFrom remote 0 0 l1).2.2.length a).2.1
        = some err := by rw [h]
    unfold fetchOne at h2
    have hl : ¬ a.Body.length > 0 := by simp [hb]
    rw [if_neg hl, if_neg hu, hget] at h2
    simp only [hst, ne_eq, not_true_eq_false, if_false, hbody] at h2
    cases h2
  · rw [hget] at hr
    cases hr
    rw [hbody] at hbody'
    cases hbody'
    rw [h]
    exact ⟨_, _, rfl, fetchFrom_length remote l1 0 0⟩

/-- `strings.Index` against the text after the first occurrence: either there
is no occurrence and the index is -1, or the index is a position `k` and the
text after the occurrence is what follows position `k + len(needle)`. -/
theorem indexFrom_textAfter (needle : Str) (s : Str) :
    ∀ i : Nat,
      (textAfter needle s = none ∧ indexFrom needle s i = -1)
      ∨ ∃ k : Nat, indexFrom needle s i = ((i + k : Nat) : Int)
          ∧ textAfter needle s = some (s.drop (k + needle.length)) := by
  induction s with
  | nil =>
    intro i
    by_cases hn : needle = []
    · right
      exact ⟨0, by simp [indexFrom, hn], by simp [textAfter, hn]⟩
    · left
      exact ⟨by simp [textAfter, hn], by simp [indexFrom, hn]⟩
  | cons c t ih =>
    intro i
    by_cases hp : startsWith (c :: t) needle = true
    · right
      refine ⟨0, ?_, ?_⟩
      · rw [indexFrom, if_pos hp]; rfl
      · rw [textAfter, if_pos hp]; simp
    · rcases ih (i + 1) with ⟨h1, h2⟩ | ⟨k, h1, h2⟩
      · left
        refine ⟨?_, ?_⟩
        · rw [textAfter, if_neg hp]; exact h1
        · rw [indexFrom, if_neg hp]; exact h2
      · right
        refine ⟨k + 1, ?_, ?_⟩
        · rw [indexFrom, if_neg hp, h1]
          congr 1
          omega
        · rw [textAfter, if_neg hp, h2]
          have e : k + 1 + needle.length = (k + needle.length) + 1 := by omega
          rw [e, List.drop_succ_cons]

theorem Split_ne_nil (s : Str) (sep : Char) : Split s sep ≠ [] := by
  cases s with
  | nil => simp [Split]
  | cons c t =>
    rw [Split]
    split_ifs
    · simp
    · split <;> simp

theorem Split_no_sep (s : Str) (sep : Char) (h : sep ∉ s) : Split s sep = [s] := by
  induction s with
  | nil => rfl
  | cons c t ih =>
    have hne : c ≠ sep := fun hc => h (by simp [hc])
    have ht : sep ∉ t := fun hc => h (List.mem_cons_of_mem _ hc)
    rw [Split, if_neg hne, ih ht]

theorem Split_two (s : Str) (sep : Char) (h : sep ∈ s) :
    ∃ x y ys, Split s sep = x :: y :: ys := by
  induction s with
  | nil => simp at h
  | cons c t ih =>
    by_cases hc : c = sep
    · rw [Split, if_pos hc]
      cases hs : Split t sep with
      | nil => exact absurd hs (Split_ne_nil t sep)
      | cons y ys => exact ⟨[], y, ys, rfl⟩
    · have ht : sep ∈ t := by
        rcases List.mem_cons.mp h with h | h
        · exact absurd h.symm hc
        · exact h
      obtain ⟨x, y, ys, e⟩ := ih ht
      rw [Split, if_neg hc, e]
      exact ⟨c :: x, y, ys, rfl⟩

theorem lastSegment_no_sep (s : Str) (h : '/' ∉ s) : lastSegment s = s := by
  cases s with
  | nil => rfl
  | cons c t =>
    have hne : c ≠ '/' := fun hc => h (by simp [hc])
    have ht : '/' ∉ t := fun hc => h (List.mem_cons_of_mem _ hc)
    rw [lastSegment, if_neg ht, if_neg hne]

/-- The last piece of `strings.Split(url, "/")` is the text after the last
`/` of the URL. -/
theorem Split_getLast (s : Str) : (Split s '/').getLast? = some (lastSegment s) := by
  induction s with
  | nil => rfl
  | cons c t ih =>
    by_cases ht : '/' ∈ t
    · obtain ⟨x, y, ys, e⟩ := Split_two t '/' ht
      rw [lastSegment, if_pos ht, ← ih, Split, e]
      split_ifs <;> simp [List.getLast?_cons_cons]
    · rw [Split_no_sep t '/' ht] at ih
      rw [lastSegment, if_neg ht, Split, Split_no_sep t '/' ht]
      split_ifs <;> simp

theorem lastSegment_after (pre seg : Str) (h : '/' ∉ seg) :
    lastSegment (pre ++ '/' :: seg) = seg := by
  induction pre with
  | nil =>
    show lastSegment ('/' :: seg) = seg
    rw [lastSegment, if_neg h, if_pos rfl]
  | cons c t ih =>
    show lastSegment (c :: (t ++ '/' :: seg)) = seg
    rw [lastSegment, if_pos (by simp), ih]

theorem filenameOf_ne_nil (cd url : Str) (i : Nat) : filenameOf cd url i ≠ [] := by
  unfold filenameOf
  simp only []
  split_ifs with h1 h2
  · exact h1
  · exact h2
  · intro h
    have := congrArg List.length h
    simp at this

theorem dropLeadingQuotes_eq (s : Str) :
    s.dropWhile (fun c => decide (c ∈ "\"".toList)) = dropLeadingQuotes s := by
  have e : "\"".toList = [Char.ofNat 0x22] := rfl
  rw [e]
  induction s with
  | nil => rfl
  | cons c t ih =>
    by_cases hc : c = Char.ofNat 0x22
    · rw [dropLeadingQuotes, if_pos hc, ← ih]
      simp [List.dropWhile_cons, hc]
    · rw [dropLeadingQuotes, if_neg hc]
      simp [List.dropWhile_cons, hc]

/-- `strings.Trim(t, "\"")` removes the double quotes around a text. -/
theorem Trim_quotes (t : Str) : Trim t "\"".toList = withoutQuotes t := by
  unfold Trim withoutQuotes
  rw [dropLeadingQuotes_eq, dropLeadingQuotes_eq]

/-- The file name block of the code yields the file name of the priority
order. -/
theorem setFilename_eq (resp : HTTPResponse) (i : Nat) (a : Attachment) (h : a.Filename = []) :
    (setFilename resp i a).Filename
      = filenameOf (resp.Header.Get "Content-Disposition".toList) a.URL i := by
  have eQ : "?".toList = ['?'] := rfl
  have hlen : "filename=".toList.length = 9 := rfl
  have hcut : ∀ seg : Str,
      (if Index seg ['?'] ≠ -1 then seg.take (Index seg ['?']).toNat else seg)
        = seg.takeWhile (fun c => c != '?') := cut_at_Index '?'
  -- the file name taken from the header by the code is the one of the rule
  have hhead : (if resp.Header.Get "Content-Disposition".toList ≠ [] then
        (if Index (resp.Header.Get "Content-Disposition".toList) "filename=".toList ≠ -1 then
          ({ a with Filename := Trim ((resp.Header.Get "Content-Disposition".toList).drop
              (Index (resp.Header.Get "Content-Disposition".toList) "filename=".toList
                + 9).toNat) "\"".toList } : Attachment)
         else a)
       else a).Filename
      = (match textAfter "filename=".toList (resp.Header.Get "Content-Disposition".toList) with
         | some t => withoutQuotes t
         | none => []) := by
    by_cases hcd : resp.Header.Get "Content-Disposition".toList = []
    · rw [hcd]
      simp only [ne_eq, not_true_eq_false, if_false, h]
      rfl
    · rw [if_pos hcd]
      rcases indexFrom_textAfter "filename=".toList
          (resp.Header.Get "Content-Disposition".toList) 0 with ⟨h1, h2⟩ | ⟨k, h1, h2⟩
      · have hi : Index (resp.Header.Get "Content-Disposition".toList) "filename=".toList
            = -1 := h2
        rw [h1, hi]
        simp only [ne_eq, not_true_eq_false, if_false, h]
      · have hi : Index (resp.Header.Get "Content-Disposition".toList) "filename=".toList
            = ((0 + k : Nat) : Int) := h1
        have hne : ((0 + k : Nat) : Int) ≠ -1 := by omega
        have ht : (((0 + k : Nat) : Int) + 9).toNat = k + 9 := by omega
        rw [h2, hi, if_pos hne, ht, hlen]
        exact Trim_quotes _
  unfold setFilename filenameOf
  rw [if_pos h]
  simp only [eQ]
  rw [← hhead]
  generalize hA : (if resp.Header.Get "Content-Disposition".toList ≠ [] then
        (if Index (resp.Header.Get "Content-Disposition".toList) "filename=".toList ≠ -1 then
          ({ a with Filename := Trim ((resp.Header.Get "Content-Disposition".toList).drop
              (Index (resp.Header.Get "Content-Disposition".toList) "filename=".toList
                + 9).toNat) "\"".toList } : Attachment)
         else a)
       else a) = A
  have hURL : A.URL = a.URL := by
    rw [← hA]
    split_ifs <;> rfl
  by_cases hf : A.Filename = []
  · rw [if_pos hf]
    simp only [hf, ne_eq, not_true_eq_false, if_false]
    rw [hURL, Split_getLast]
    simp only [hcut]
    by_cases hseg : (lastSegment a.URL).takeWhile (fun c => c != '?') = []
    · simp only [hseg, if_true, ne_eq, not_true_eq_false, if_false]
    · simp only [hseg, if_false, ne_eq, not_false_eq_true, if_true]
  · rw [if_neg hf, if_neg hf]
    simp only [hf, ne_eq, not_false_eq_true, if_true]

/-- Without brackets in the right order the address helper only trims: its
result is what `strings.TrimSpace` makes of the input. -/
theorem ExtractEmailAddress_eq_TrimSpace (s : Str)
    (h : '<' ∉ s ∨ '>' ∉ s ∨ ∃ pre post, s = pre ++ '>' :: post ∧ '<' ∉ pre ∧ '>' ∉ pre) :
    ExtractEmailAddress s = TrimSpace s := by
  have eL : "<".toList = ['<'] := rfl
  have eG : ">".toList = ['>'] := rfl
  unfold ExtractEmailAddress
  simp only [eL, eG]
  rcases h with h | h | ⟨pre, post, rfl, h1, h2⟩
  · rw [Contains_single_false '<' _ (fun hc => h (mem_TrimSpace _ _ hc))]
    simp
  · rw [Contains_single_false '>' _ (fun hc => h (mem_TrimSpace _ _ hc))]
    simp
  · rw [TrimSpace_around pre post '>' (by decide)]
    have hp1 : '<' ∉ pre.dropWhile isSpace := fun hc => h1 (mem_dropWhile _ _ _ hc)
    have hp2 : '>' ∉ pre.dropWhile isSpace := fun hc => h2 (mem_dropWhile _ _ _ hc)
    have hiG := Index_first '>' (pre.dropWhile isSpace)
      ((post.reverse.dropWhile isSpace).reverse) hp2
    have hiL : Index (pre.dropWhile isSpace ++ '>' :: (post.reverse.dropWhile isSpace).reverse)
          ['<'] = -1
        ∨ ((pre.dropWhile isSpace).length : Int)
          ≤ Index (pre.dropWhile isSpace ++ '>' :: (post.reverse.dropWhile isSpace).reverse)
              ['<'] := by
      unfold Index
      rw [indexFrom_single_skip '<' _ _ hp1 0]
      rcases indexFrom_single_range '<' ('>' :: (post.reverse.dropWhile isSpace).reverse)
        (0 + (pre.dropWhile isSpace).length) with h | h
      · left; exact h
      · right
        simpa using h
    rw [hiG]
    rcases hiL with hl | hl
    · have hc : Contains (pre.dropWhile isSpace
          ++ '>' :: (post.reverse.dropWhile isSpace).reverse) ['<'] = false := by
        rw [Contains, hl]; rfl
      rw [hc]
      simp
    · have hn : ¬ (Index (pre.dropWhile isSpace
          ++ '>' :: (post.reverse.dropWhile isSpace).reverse) ['<']
          < ((pre.dropWhile isSpace).length : Int)) := not_lt.mpr hl
      simp only [hn, if_false, ite_self]

theorem isSpace_of_whiteSpace : ∀ c ∈ whiteSpace, isSpace c = true := by
  decide

/-- The white space of `unicode.IsSpace` is the white space of Unicode. -/
theorem isSpace_iff (c : Char) : isSpace c = true ↔ c ∈ whiteSpace := by
  constructor
  · intro h
    have hc : Char.ofNat c.toNat = c := Char.ofNat_toNat c
    rw [← hc]
    unfold isSpace at h
    simp only [Bool.or_eq_true, Bool.and_eq_true, decide_eq_true_eq, beq_iff_eq] at h
    generalize c.toNat = n at h
    rcases h with ((((((((((⟨h1, h2⟩ | h) | h) | h) | h) | ⟨h1, h2⟩) | h) | h) | h) | h) | h)
    · interval_cases n <;> decide
    · subst h; decide
    · subst h; decide
    · subst h; decide
    · subst h; decide
    · interval_cases n <;> decide
    · subst h; decide
    · subst h; decide
    · subst h; decide
    · subst h; decide
    · subst h; decide
  · exact isSpace_of_whiteSpace c

theorem head_dropWhile_stop (p : Char → Bool) (l : Str) (c : Char)
    (h : (l.dropWhile p).head? = some c) : p c = false := by
  have := List.head?_dropWhile_not p l
  rw [h] at this
  exact this

/-- What `strings.TrimSpace` does, said without it: the input is the result
with white space before and after it, and the result neither starts nor ends
with white space. -/
theorem TrimSpace_spec (s : Str) :
    ∃ lead trail, s = lead ++ TrimSpace s ++ trail
      ∧ (∀ c ∈ lead, isSpace c = true) ∧ (∀ c ∈ trail, isSpace c = true)
      ∧ (∀ c, (TrimSpace s).head? = some c → isSpace c = false)
      ∧ (∀ c, (TrimSpace s).getLast? = some c → isSpace c = false) := by
  have hm : (s.dropWhile isSpace)
      = TrimSpace s ++ ((s.dropWhile isSpace).reverse.takeWhile isSpace).reverse := by
    unfold TrimSpace
    rw [← List.reverse_append, List.takeWhile_append_dropWhile, List.reverse_reverse]
  refine ⟨s.takeWhile isSpace, ((s.dropWhile isSpace).reverse.takeWhile isSpace).reverse,
    ?_, ?_, ?_, ?_, ?_⟩
  · rw [List.append_assoc, ← hm, List.takeWhile_append_dropWhile]
  · intro c hc
    exact List.mem_takeWhile_imp hc
  · intro c hc
    exact List.mem_takeWhile_imp (List.mem_reverse.mp hc)
  · intro c hc
    have hne : TrimSpace s ≠ [] := by
      intro h0
      rw [h0] at hc
      cases hc
    have h2 : (s.dropWhile isSpace).head? = some c := by
      rw [hm]
      cases ht : TrimSpace s with
      | nil => exact absurd ht hne
      | cons x xs =>
        rw [ht] at hc
        exact hc
    exact head_dropWhile_stop isSpace s c h2
  · intro c hc
    unfold TrimSpace at hc
    rw [List.getLast?_reverse] at hc
    exact head_dropWhile_stop isSpace _ c hc

/-- The address helper on a text whose first `<` comes before its first `>`:
the result is the text between the two. -/
theorem ExtractEmailAddress_inner (pre mid post : Str)
    (h1 : '<' ∉ pre) (h2 : '>' ∉ pre) (h3 : '>' ∉ mid) :
    ExtractEmailAddress (pre ++ '<' :: mid ++ '>' :: post) = mid := by
  have hp1 : '<' ∉ pre.dropWhile isSpace := fun h => h1 (mem_dropWhile _ _ _ h)
  have h4 : '>' ∉ pre.dropWhile isSpace ++ '<' :: mid := by
    intro h
    rcases List.mem_append.mp h with h | h
    · exact h2 (mem_dropWhile _ _ _ h)
    · rcases List.mem_cons.mp h with h | h
      · exact absurd h (by decide)
      · exact h3 h
  have eL : "<".toList = ['<'] := rfl
  have eG : ">".toList = ['>'] := rfl
  unfold ExtractEmailAddress
  simp only [TrimSpace_bracketed, eL, eG]
  have hiL : Index (pre.dropWhile isSpace ++ '<' :: mid
      ++ '>' :: (post.reverse.dropWhile isSpace).reverse) ['<']
      = ((pre.dropWhile isSpace).length : Int) := by
    have e : pre.dropWhile isSpace ++ '<' :: mid ++ '>' :: (post.reverse.dropWhile isSpace).reverse
        = pre.dropWhile isSpace ++ '<' :: (mid ++ '>' :: (post.reverse.dropWhile isSpace).reverse) := by
      simp
    rw [e]
    exact Index_first '<' _ _ hp1
  have hiG : Index (pre.dropWhile isSpace ++ '<' :: mid
      ++ '>' :: (post.reverse.dropWhile isSpace).reverse) ['>']
      = (((pre.dropWhile isSpace).length + 1 + mid.length : Nat) : Int) := by
    have := Index_first '>' (pre.dropWhile isSpace ++ '<' :: mid)
      ((post.reverse.dropWhile isSpace).reverse) h4
    rw [this]
    simp only [List.length_append, List.length_cons]
    congr 1
    omega
  have hcL : Contains (pre.dropWhile isSpace ++ '<' :: mid
      ++ '>' :: (post.reverse.dropWhile isSpace).reverse) ['<'] = true := by
    rw [Contains, hiL]
    exact decide_eq_true (Int.natCast_nonneg _)
  have hcG : Contains (pre.dropWhile isSpace ++ '<' :: mid
      ++ '>' :: (post.reverse.dropWhile isSpace).reverse) ['>'] = true := by
    rw [Contains, hiG]
    exact decide_eq_true (Int.natCast_nonneg _)
  rw [hcL, hcG, hiL, hiG]
  have hlt : ((pre.dropWhile isSpace).length : Int)
      < (((pre.dropWhile isSpace).length + 1 + mid.length : Nat) : Int) := by
    exact_mod_cast (by omega : (pre.dropWhile isSpace).length
      < (pre.dropWhile isSpace).length + 1 + mid.length)
  simp only [Bool.and_self, if_true, hlt]
  have et : (((pre.dropWhile isSpace).length : Int) + 1).toNat
      = (pre.dropWhile isSpace).length + 1 := by
    omega
  rw [et, Int.toNat_ofNat]
  unfold slice
  have ed : (pre.dropWhile isSpace ++ '<' :: mid
      ++ '>' :: (post.reverse.dropWhile isSpace).reverse).drop ((pre.dropWhile isSpace).length + 1)
      = mid ++ '>' :: (post.reverse.dropWhile isSpace).reverse := by
    have e : pre.dropWhile isSpace ++ '<' :: mid ++ '>' :: (post.reverse.dropWhile isSpace).reverse
        = (pre.dropWhile isSpace ++ ['<'])
          ++ (mid ++ '>' :: (post.reverse.dropWhile isSpace).reverse) := by
      simp
    rw [e]
    exact List.drop_left' (by simp)
  rw [ed]
  have el : (pre.dropWhile isSpace).length + 1 + mid.length - ((pre.dropWhile isSpace).length + 1)
      = mid.length := by omega
  rw [el, List.take_left']
  rfl

/-- The address helper on a header value `Name <address>`: when neither the
name nor the address holds a `<` or a `>`, the result is the address. -/
theorem ExtractEmailAddress_named (name addr : Str)
    (h1 : '<' ∉ name) (h2 : '>' ∉ name) (h3 : '>' ∉ addr) :
    ExtractEmailAddress (name ++ " <".toList ++ addr ++ ">".toList) = addr := by
  have e : name ++ " <".toList ++ addr ++ ">".toList
      = (name ++ [' ']) ++ '<' :: addr ++ '>' :: [] := by
    show name ++ [' ', '<'] ++ addr ++ ['>'] = _
    simp
  rw [e]
  apply ExtractEmailAddress_inner
  · intro h
    rcases List.mem_append.mp h with h | h
    · exact h1 h
    · simp at h
  · intro h
    rcases List.mem_append.mp h with h | h
    · exact h2 h
    · simp at h
  · exact h3

/-- The first two lines written by `BuildRawEmail` are the From line and the
To line. -/
theorem BuildRawEmail_first_lines (data : SendMailData) (D B A : Str) :
    ∃ rest, BuildRawEmail data D B A
      = .ok ("From: ".toList
          ++ (if data.FromName ≠ []
              then data.FromName ++ " <".toList ++ data.From ++ ">".toList
              else data.From) ++ CRLF
          ++ ("To: ".toList
            ++ (if data.ToName ≠ []
                then data.ToName ++ " <".toList ++ data.To ++ ">".toList
                else data.To) ++ CRLF)
          ++ rest) := by
  rw [BuildRawEmail_eq]
  unfold writeHeaders
  cases data.IsTransactional
  · simp only [Bool.false_eq_true, if_false, List.nil_append, List.append_assoc, CRLF]
    exact ⟨_, rfl⟩
  · simp only [if_true, List.nil_append, List.append_assoc, CRLF]
    exact ⟨_, rfl⟩

/-! ## The claims about `BuildRawEmail` -/

/-- C1: for every message, date string `D` and outer boundary `B`, the output
of `BuildRawEmail` begins with the lines From, To, Reply-To, Subject, Date,
MIME-Version, then X-Transactional and Precedence exactly when the message is
transactional, then the multipart/mixed Content-Type line naming `B`, each
ended by CRLF, and a blank line.  From and To carry `Name <address>` when the
name is non-empty and the bare address otherwise; Reply-To is `ReplyTo` when
non-empty and `From` otherwise. -/
theorem BuildRawEmail_header_block (data : SendMailData) (D B A : Str) :
    ∃ rest : Str, BuildRawEmail data D B A = .ok (
      ("From: ".toList
        ++ (if data.FromName ≠ [] then data.FromName ++ " <".toList ++ data.From ++ ">".toList
            else data.From) ++ CRLF)
      ++ ("To: ".toList
        ++ (if data.ToName ≠ [] then data.ToName ++ " <".toList ++ data.To ++ ">".toList
            else data.To) ++ CRLF)
      ++ ("Reply-To: ".toList ++ (if data.ReplyTo ≠ [] then data.ReplyTo else data.From) ++ CRLF)
      ++ ("Subject: ".toList ++ data.Subject ++ CRLF)
      ++ ("Date: ".toList ++ D ++ CRLF)
      ++ ("MIME-Version: 1.0".toList ++ CRLF)
      ++ (if data.IsTransactional = true
          then "X-Transactional: true".toList ++ CRLF ++ ("Precedence: bulk".toList ++ CRLF)
          else [])
      ++ ("Content-Type: multipart/mixed; boundary=\"".toList ++ B ++ "\"".toList ++ CRLF)
      ++ CRLF
      ++ rest) := by
  refine ⟨joinParts (alternativeParts B A data ++ attachmentParts B data.Attachments)
    ++ (CRLF ++ "--".toList ++ B ++ "--".toList ++ CRLF), ?_⟩
  rw [BuildRawEmail_eq]
  congr 1
  unfold writeHeaders
  by_cases h1 : data.FromName = [] <;> by_cases h2 : data.ToName = [] <;>
    by_cases h3 : data.ReplyTo = [] <;> cases h4 : data.IsTransactional <;>
    simp only [h1, h2, h3, ne_eq, not_true_eq_false, not_false_eq_true, if_true, if_false,
      Bool.false_eq_true, List.append_assoc, List.nil_append, List.append_nil, CRLF] <;> rfl

/-- C2: for every attachment with a non-empty body, the payload that
`BuildRawEmail` writes after the head of its part and before the next
delimiter, once its CRLF line terminators are removed, decodes as standard
base64 to exactly the attachment's octets. -/
theorem attachment_payload_decodes (data : SendMailData) (now B A : Str)
    (l1 l2 : List Attachment) (a : Attachment)
    (hs : data.Attachments = l1 ++ a :: l2) (hb : a.Body ≠ []) :
    ∃ pre payload post,
      BuildRawEmail data now B A
        = .ok (pre ++ attachmentHead B a ++ payload ++ (CRLF ++ "--".toList ++ B ++ post))
      ∧ DecodeString (removeCRLF payload) = some a.Body := by
  obtain ⟨pre, post, h⟩ := attachment_in_output data now B A l1 l2 a hs hb
  refine ⟨pre, wrapped (EncodeToString a.Body), post, ?_, ?_⟩
  · rw [h, attachmentPart]; simp only [List.append_assoc]
  · have hp : ∀ l ∈ lines76 (EncodeToString a.Body), '\r' ∉ l := by
      intro l hl hc
      exact (EncodeToString_plain a.Body _ (lines76_mem _ _ (Nat.le_refl _) l hl _ hc)).1 rfl
    rw [wrapped, removeCRLF_lines _ hp, lines76_flatten _ _ (Nat.le_refl _),
      DecodeString_EncodeToString]

/-- C2 at the sample message: the payload of its first attachment decodes to
the four octets of that attachment. -/
theorem attachment_payload_decodes_witness :
    (sampleMessage.Attachments
        = [] ++ (⟨[], [72, 105, 33, 10], [], "x.txt".toList⟩ : Attachment)
          :: [⟨"u".toList, [], [], []⟩])
    ∧ (⟨[], [72, 105, 33, 10], [], "x.txt".toList⟩ : Attachment).Body ≠ []
    ∧ ∃ pre payload post,
      BuildRawEmail sampleMessage "D".toList "B".toList "A".toList
        = .ok (pre ++ attachmentHead "B".toList ⟨[], [72, 105, 33, 10], [], "x.txt".toList⟩
            ++ payload ++ (CRLF ++ "--".toList ++ "B".toList ++ post))
      ∧ DecodeString (removeCRLF payload) = some [72, 105, 33, 10] :=
  ⟨rfl, by decide,
    attachment_payload_decodes sampleMessage "D".toList "B".toList "A".toList []
      [⟨"u".toList, [], [], []⟩] ⟨[], [72, 105, 33, 10], [], "x.txt".toList⟩ rfl (by decide)⟩

/-- C3: for every attachment with a non-empty body, the payload that
`BuildRawEmail` writes after the head of its part and before the next
delimiter is a sequence of lines, each terminated by CRLF and free of CR and
LF; every line but the last has exactly 76 characters and the last has
between 1 and 76. -/
theorem attachment_payload_lines (data : SendMailData) (now B A : Str)
    (l1 l2 : List Attachment) (a : Attachment)
    (hs : data.Attachments = l1 ++ a :: l2) (hb : a.Body ≠ []) :
    ∃ pre post init last,
      BuildRawEmail data now B A
        = .ok (pre ++ attachmentHead B a
            ++ ((init ++ [last]).map (fun l => l ++ CRLF)).flatten
            ++ (CRLF ++ "--".toList ++ B ++ post))
      ∧ (∀ l ∈ init, l.length = 76)
      ∧ 1 ≤ last.length ∧ last.length ≤ 76
      ∧ (∀ l ∈ init ++ [last], '\r' ∉ l ∧ '\n' ∉ l) := by
  obtain ⟨pre, post, h⟩ := attachment_in_output data now B A l1 l2 a hs hb
  obtain ⟨init, last, e, hi, h1, h2⟩ :=
    lines76_shape _ (EncodeToString a.Body) (Nat.le_refl _) (EncodeToString_ne_nil _ hb)
  refine ⟨pre, post, init, last, ?_, hi, h1, h2, ?_⟩
  · rw [h, attachmentPart, wrapped, e]; simp only [List.append_assoc]
  · intro l hl
    rw [← e] at hl
    constructor
    · intro hc
      exact (EncodeToString_plain a.Body _ (lines76_mem _ _ (Nat.le_refl _) l hl _ hc)).1 rfl
    · intro hc
      exact (EncodeToString_plain a.Body _ (lines76_mem _ _ (Nat.le_refl _) l hl _ hc)).2 rfl

/-- C3 at the sample message: the payload of its first attachment is made of
such lines. -/
theorem attachment_payload_lines_witness :
    (sampleMessage.Attachments
        = [] ++ (⟨[], [72, 105, 33, 10], [], "x.txt".toList⟩ : Attachment)
          :: [⟨"u".toList, [], [], []⟩])
    ∧ (⟨[], [72, 105, 33, 10], [], "x.txt".toList⟩ : Attachment).Body ≠ []
    ∧ ∃ pre post init last,
      BuildRawEmail sampleMessage "D".toList "B".toList "A".toList
        = .ok (pre ++ attachmentHead "B".toList ⟨[], [72, 105, 33, 10], [], "x.txt".toList⟩
            ++ ((init ++ [last]).map (fun l => l ++ CRLF)).flatten
            ++ (CRLF ++ "--".toList ++ "B".toList ++ post))
      ∧ (∀ l ∈ init, l.length = 76)
      ∧ 1 ≤ last.length ∧ last.length ≤ 76
      ∧ (∀ l ∈ init ++ [last], '\r' ∉ l ∧ '\n' ∉ l) :=
  ⟨rfl, by decide,
    attachment_payload_lines sampleMessage "D".toList "B".toList "A".toList []
      [⟨"u".toList, [], [], []⟩] ⟨[], [72, 105, 33, 10], [], "x.txt".toList⟩ rfl (by decide)⟩

/-- C4: for every message, after the header lines and the alternative part (if
any) the output holds exactly one part for each attachment with a non-empty
body, in the original order, and nothing for an attachment with an empty
body.  Each part opens with the delimiter of the outer boundary and declares
Content-Disposition `attachment; filename="N"` (`N` the Filename, or
`attachment` when empty), Content-Transfer-Encoding `base64` and Content-Type
(the ContentType, or `application/octet-stream` when empty); the outer closing
delimiter follows the last part. -/
theorem BuildRawEmail_attachment_parts (data : SendMailData) (now B A : Str) :
    BuildRawEmail data now B A
      = .ok (writeHeaders data now
          ++ ("Content-Type: multipart/mixed; boundary=\"".toList ++ B ++ "\"".toList
              ++ CRLF ++ CRLF)
          ++ joinParts (alternativeParts B A data
              ++ (data.Attachments.filter (fun a => a.Body ≠ [])).map (fun a =>
                  "--".toList ++ B ++ CRLF
                  ++ ("Content-Disposition: attachment; filename=\"".toList
                      ++ (if a.Filename = [] then "attachment".toList else a.Filename)
                      ++ "\"".toList ++ CRLF)
                  ++ ("Content-Transfer-Encoding: base64".toList ++ CRLF)
                  ++ ("Content-Type: ".toList
                      ++ (if a.ContentType = [] then "application/octet-stream".toList
                          else a.ContentType) ++ CRLF)
                  ++ CRLF
                  ++ wrapped (EncodeToString a.Body)))
          ++ (CRLF ++ "--".toList ++ B ++ "--".toList ++ CRLF)) := by
  rw [BuildRawEmail_eq]
  rfl

/-- C5: for every message, the first part under the outer boundary is a
multipart/alternative part naming the inner boundary exactly when `HTMLBody`
or `TextBody` is non-empty, and there is no such part otherwise.  Inside it
the text/plain sub-part is present exactly when `TextBody` is non-empty, the
text/html sub-part exactly when `HTMLBody` is non-empty, text/plain comes
first, and the payload of each is the supplied body unchanged. -/
theorem BuildRawEmail_alternative_part (data : SendMailData) (now B A : Str) :
    BuildRawEmail data now B A
      = .ok (writeHeaders data now
          ++ ("Content-Type: multipart/mixed; boundary=\"".toList ++ B ++ "\"".toList
              ++ CRLF ++ CRLF)
          ++ joinParts (
              (if data.HTMLBody ≠ [] ∨ data.TextBody ≠ [] then
                ["--".toList ++ B ++ CRLF
                  ++ ("Content-Type: multipart/alternative; boundary=\"".toList ++ A
                      ++ "\"".toList ++ CRLF)
                  ++ CRLF
                  ++ joinParts (
                      (if data.TextBody ≠ [] then
                        ["--".toList ++ A ++ CRLF
                          ++ ("Content-Transfer-Encoding: quoted-printable".toList ++ CRLF)
                          ++ ("Content-Type: text/plain; charset=UTF-8".toList ++ CRLF)
                          ++ CRLF ++ data.TextBody]
                       else [])
                      ++ (if data.HTMLBody ≠ [] then
                        ["--".toList ++ A ++ CRLF
                          ++ ("Content-Transfer-Encoding: quoted-printable".toList ++ CRLF)
                          ++ ("Content-Type: text/html; charset=UTF-8".toList ++ CRLF)
                          ++ CRLF ++ data.HTMLBody]
                       else []))
                  ++ (CRLF ++ "--".toList ++ A ++ "--".toList ++ CRLF)]
               else [])
              ++ attachmentParts B data.Attachments)
          ++ (CRLF ++ "--".toList ++ B ++ "--".toList ++ CRLF)) := by
  rw [BuildRawEmail_eq]
  by_cases ht : data.TextBody = [] <;> by_cases hh : data.HTMLBody = [] <;>
    simp only [alternativeParts, alternativePart, bodySubParts, bodySubPart, ht, hh, ne_eq,
      not_true_eq_false, not_false_eq_true, if_true, if_false, or_self, or_true, true_or,
      List.append_assoc, List.nil_append, List.append_nil] <;> rfl

/-- C6: for every message, the output ends with the outer closing delimiter
CRLF `--B--` CRLF; and when `HTMLBody` or `TextBody` is non-empty, the inner
closing delimiter CRLF `--A--` CRLF stands right after the last body sub-part
(text/html when `HTMLBody` is non-empty, text/plain otherwise) and is followed
only by the attachment parts, each led by CRLF, and the outer closing
delimiter. -/
theorem BuildRawEmail_closing_delimiters (data : SendMailData) (now B A : Str) :
    (∃ front, BuildRawEmail data now B A
        = .ok (front ++ (CRLF ++ "--".toList ++ B ++ "--".toList ++ CRLF)))
    ∧ ((data.HTMLBody ≠ [] ∨ data.TextBody ≠ []) →
        ∃ front, BuildRawEmail data now B A
          = .ok (front
              ++ (if data.HTMLBody ≠ []
                  then bodySubPart A "text/html; charset=UTF-8".toList data.HTMLBody
                  else bodySubPart A "text/plain; charset=UTF-8".toList data.TextBody)
              ++ (CRLF ++ "--".toList ++ A ++ "--".toList ++ CRLF)
              ++ ((attachmentParts B data.Attachments).map (fun p => CRLF ++ p)).flatten
              ++ (CRLF ++ "--".toList ++ B ++ "--".toList ++ CRLF))) := by
  constructor
  · exact ⟨_, BuildRawEmail_eq data now B A⟩
  · intro h
    obtain ⟨front, hf⟩ := bodySubParts_last A data h
    refine ⟨writeHeaders data now
      ++ ("Content-Type: multipart/mixed; boundary=\"".toList ++ B ++ "\"".toList ++ CRLF ++ CRLF)
      ++ ("--".toList ++ B ++ CRLF
        ++ ("Content-Type: multipart/alternative; boundary=\"".toList ++ A ++ "\"".toList ++ CRLF)
        ++ CRLF) ++ front, ?_⟩
    rw [BuildRawEmail_eq, alternativeParts, if_pos h, List.singleton_append, joinParts_cons,
      alternativePart, hf]
    simp only [List.append_assoc]

/-- C6 at the sample message, whose `TextBody` is non-empty. -/
theorem BuildRawEmail_closing_delimiters_witness :
    (sampleMessage.HTMLBody ≠ [] ∨ sampleMessage.TextBody ≠ [])
    ∧ ∃ front, BuildRawEmail sampleMessage "D".toList "B".toList "A".toList
        = .ok (front
            ++ (if sampleMessage.HTMLBody ≠ []
                then bodySubPart "A".toList "text/html; charset=UTF-8".toList sampleMessage.HTMLBody
                else bodySubPart "A".toList "text/plain; charset=UTF-8".toList sampleMessage.TextBody)
            ++ (CRLF ++ "--".toList ++ "A".toList ++ "--".toList ++ CRLF)
            ++ ((attachmentParts "B".toList sampleMessage.Attachments).map
                (fun p => CRLF ++ p)).flatten
            ++ (CRLF ++ "--".toList ++ "B".toList ++ "--".toList ++ CRLF)) :=
  ⟨by decide,
    (BuildRawEmail_closing_delimiters sampleMessage "D".toList "B".toList "A".toList).2
      (by decide)⟩

/-- C7: for every message value, whatever its addresses, bodies and
attachments, `BuildRawEmail` returns a text and no error. -/
theorem BuildRawEmail_never_fails (data : SendMailData) (now B A : Str) :
    ∃ out : Str, BuildRawEmail data now B A = .ok out :=
  ⟨_, BuildRawEmail_eq data now B A⟩

/-! ## The claims about the transports and the address helper -/

/-- C8: for every message whose `To` is empty or lacks `@`, or whose `From`
is empty or lacks `@`, `Local.Send` returns the validation error (`empty To
email` or `empty From email`) and has caused no event: the raw message was
not built and nothing was submitted to the relay. -/
theorem Local_Send_rejects_bad_addresses (env : Env) (data : SendMailData)
    (h : data.To = [] ∨ '@' ∉ data.To ∨ data.From = [] ∨ '@' ∉ data.From) :
    ((Local.Send env data).1 = some "empty To email".toList
      ∨ (Local.Send env data).1 = some "empty From email".toList)
    ∧ (Local.Send env data).2 = [] := by
  have hc : ∀ s : Str, (!Contains s "@".toList) = true ↔ '@' ∉ s := by
    intro s
    have := Contains_single '@' s
    have e : "@".toList = ['@'] := rfl
    rw [e]
    cases hC : Contains s ['@']
    · simp only [Bool.not_false, true_iff]
      intro hm
      rw [this.mpr hm] at hC
      cases hC
    · simp only [Bool.not_true, Bool.false_eq_true, false_iff, not_not]
      exact this.mp hC
  unfold Local.Send
  by_cases hTo : data.To.length = 0 ∨ (!Contains data.To "@".toList) = true
  · rw [if_pos hTo]
    exact ⟨Or.inl rfl, rfl⟩
  · rw [if_neg hTo]
    have hFrom : data.From.length = 0 ∨ (!Contains data.From "@".toList) = true := by
      rcases h with h | h | h | h
      · exact absurd (Or.inl (by simp [h])) hTo
      · exact absurd (Or.inr ((hc _).mpr h)) hTo
      · exact Or.inl (by simp [h])
      · exact Or.inr ((hc _).mpr h)
    rw [if_pos hFrom]
    exact ⟨Or.inr rfl, rfl⟩

/-- C8 at the message without sender address. -/
theorem Local_Send_rejects_bad_addresses_witness :
    (noSenderMessage.To = [] ∨ '@' ∉ noSenderMessage.To ∨ noSenderMessage.From = []
      ∨ '@' ∉ noSenderMessage.From)
    ∧ ((Local.Send sampleEnv noSenderMessage).1 = some "empty To email".toList
      ∨ (Local.Send sampleEnv noSenderMessage).1 = some "empty From email".toList)
    ∧ (Local.Send sampleEnv noSenderMessage).2 = [] :=
  ⟨Or.inr (Or.inr (Or.inl rfl)),
    Local_Send_rejects_bad_addresses sampleEnv noSenderMessage (Or.inr (Or.inr (Or.inl rfl)))⟩

/-- `AWSSES.Send` does reject a message whose `To` is empty or lacks `@`
before anything else happens. -/
theorem AWSSES_Send_rejects_bad_To (env : Env) (data : SendMailData)
    (h : data.To = [] ∨ '@' ∉ data.To) :
    AWSSES.Send env data = (some "empty To email".toList, []) := by
  have hTo : data.To.length = 0 ∨ (!Contains data.To "@".toList) = true := by
    rcases h with h | h
    · exact Or.inl (by simp [h])
    · right
      have e : "@".toList = ['@'] := rfl
      rw [e]
      cases hC : Contains data.To ['@']
      · rfl
      · exact absurd ((Contains_single '@' data.To).mp hC) h
  unfold AWSSES.Send
  rw [if_pos hTo]

/-- C9, the code at the failing input: for a message with a valid `To` and
an empty `From`, `AWSSES.Send` does not stop at validation.  Whatever the
surroundings, its first event is the configuration resolution, and when
configuration and API answer without error the message is submitted and
`Send` returns nil; `Local.Send` rejects the same message with `empty From
email` and no event. -/
theorem AWSSES_Send_accepts_empty_From (env : Env) :
    (∃ rest, (AWSSES.Send env noSenderMessage).2
        = Event.LoadDefaultConfig (TrimSpace env.S3Region) :: rest)
    ∧ (AWSSES.Send sampleEnv noSenderMessage).1 = none
    ∧ (∃ raw, (AWSSES.Send sampleEnv noSenderMessage).2.getLast? = some (Event.SendRawEmail raw))
    ∧ Local.Send env noSenderMessage = (some "empty From email".toList, []) := by
  refine ⟨?_, by rfl, ⟨_, by rfl⟩, by rfl⟩
  have hTo : ¬ (noSenderMessage.To.length = 0
      ∨ (!Contains noSenderMessage.To "@".toList) = true) := by decide
  unfold AWSSES.Send
  rw [if_neg hTo]
  simp only []
  cases env.LoadDefaultConfig (TrimSpace env.S3Region) with
  | some err => exact ⟨_, rfl⟩
  | none =>
    simp only []
    cases BuildRawEmail _ env.now env.boundary env.altBoundary with
    | error err => exact ⟨_, rfl⟩
    | ok rawEmail =>
      simp only []
      cases env.SendRawEmail (TrimSpace env.S3Region) rawEmail with
      | some err => exact ⟨_, rfl⟩
      | none => exact ⟨_, rfl⟩

/-- C10 as stated fails: on `a < b >` the result is ` b `, with the white
space inside the brackets, not the trimmed `b`. -/
theorem ExtractEmailAddress_keeps_inner_space :
    ExtractEmailAddress "a < b >".toList = " b ".toList
    ∧ ExtractEmailAddress "a < b >".toList ≠ TrimSpace " b ".toList := by
  decide

/-- C10, amended: for every string in which the first `<` comes before the
first `>`, `ExtractEmailAddress` returns exactly the text between that `<`
and that `>`, white space inside the brackets included. -/
theorem ExtractEmailAddress_between (pre mid post : Str)
    (h1 : '<' ∉ pre) (h2 : '>' ∉ pre) (h3 : '>' ∉ mid) :
    ExtractEmailAddress (pre ++ '<' :: mid ++ '>' :: post) = mid := by
  have hp1 : '<' ∉ pre.dropWhile isSpace := fun h => h1 (mem_dropWhile _ _ _ h)
  have h4 : '>' ∉ pre.dropWhile isSpace ++ '<' :: mid := by
    intro h
    rcases List.mem_append.mp h with h | h
    · exact h2 (mem_dropWhile _ _ _ h)
    · rcases List.mem_cons.mp h with h | h
      · exact absurd h (by decide)
      · exact h3 h
  have eL : "<".toList = ['<'] := rfl
  have eG : ">".toList = ['>'] := rfl
  unfold ExtractEmailAddress
  simp only [TrimSpace_bracketed, eL, eG]
  have hiL : Index (pre.dropWhile isSpace ++ '<' :: mid
      ++ '>' :: (post.reverse.dropWhile isSpace).reverse) ['<']
      = ((pre.dropWhile isSpace).length : Int) := by
    have e : pre.dropWhile isSpace ++ '<' :: mid ++ '>' :: (post.reverse.dropWhile isSpace).reverse
        = pre.dropWhile isSpace ++ '<' :: (mid ++ '>' :: (post.reverse.dropWhile isSpace).reverse) := by
      simp
    rw [e]
    exact Index_first '<' _ _ hp1
  have hiG : Index (pre.dropWhile isSpace ++ '<' :: mid
      ++ '>' :: (post.reverse.dropWhile isSpace).reverse) ['>']
      = (((pre.dropWhile isSpace).length + 1 + mid.length : Nat) : Int) := by
    have := Index_first '>' (pre.dropWhile isSpace ++ '<' :: mid)
      ((post.reverse.dropWhile isSpace).reverse) h4
    rw [this]
    simp only [List.length_append, List.length_cons]
    congr 1
    omega
  have hcL : Contains (pre.dropWhile isSpace ++ '<' :: mid
      ++ '>' :: (post.reverse.dropWhile isSpace).reverse) ['<'] = true := by
    rw [Contains, hiL]
    exact decide_eq_true (Int.natCast_nonneg _)
  have hcG : Contains (pre.dropWhile isSpace ++ '<' :: mid
      ++ '>' :: (post.reverse.dropWhile isSpace).reverse) ['>'] = true := by
    rw [Contains, hiG]
    exact decide_eq_true (Int.natCast_nonneg _)
  rw [hcL, hcG, hiL, hiG]
  have hlt : ((pre.dropWhile isSpace).length : Int)
      < (((pre.dropWhile isSpace).length + 1 + mid.length : Nat) : Int) := by
    exact_mod_cast (by omega : (pre.dropWhile isSpace).length
      < (pre.dropWhile isSpace).length + 1 + mid.length)
  simp only [Bool.and_self, if_true, hlt]
  have et : (((pre.dropWhile isSpace).length : Int) + 1).toNat
      = (pre.dropWhile isSpace).length + 1 := by
    omega
  rw [et, Int.toNat_ofNat]
  unfold slice
  have ed : (pre.dropWhile isSpace ++ '<' :: mid
      ++ '>' :: (post.reverse.dropWhile isSpace).reverse).drop ((pre.dropWhile isSpace).length + 1)
      = mid ++ '>' :: (post.reverse.dropWhile isSpace).reverse := by
    have e : pre.dropWhile isSpace ++ '<' :: mid ++ '>' :: (post.reverse.dropWhile isSpace).reverse
        = (pre.dropWhile isSpace ++ ['<'])
          ++ (mid ++ '>' :: (post.reverse.dropWhile isSpace).reverse) := by
      simp
    rw [e]
    exact List.drop_left' (by simp)
  rw [ed]
  have el : (pre.dropWhile isSpace).length + 1 + mid.length - ((pre.dropWhile isSpace).length + 1)
      = mid.length := by omega
  rw [el, List.take_left']
  rfl

/-- C10, amended, at `Jane Doe <j@x.com>`: the result is `j@x.com`. -/
theorem ExtractEmailAddress_between_witness :
    '<' ∉ "Jane Doe ".toList ∧ '>' ∉ "Jane Doe ".toList ∧ '>' ∉ "j@x.com".toList
    ∧ ExtractEmailAddress ("Jane Doe ".toList ++ '<' :: "j@x.com".toList ++ '>' :: [])
        = "j@x.com".toList :=
  ⟨by decide, by decide, by decide,
    ExtractEmailAddress_between "Jane Doe ".toList "j@x.com".toList [] (by decide) (by decide)
      (by decide)⟩

/-! ## The claims about the address helper without brackets, body resolution,
hydration and the handler -/

/-- C11: for every string that has no `<`, or has no `>`, or whose first `>`
comes before its first `<`, `ExtractEmailAddress` returns the string with its
leading and trailing white space removed and nothing else changed: the input
is the result with nothing but white space before it and after it, and the
result neither starts nor ends with a white space character.  The function is
total: it yields a result on every input. -/
theorem ExtractEmailAddress_without_brackets (s : Str)
    (h : '<' ∉ s ∨ '>' ∉ s ∨ ∃ pre post, s = pre ++ '>' :: post ∧ '<' ∉ pre ∧ '>' ∉ pre) :
    ∃ lead trail, s = lead ++ ExtractEmailAddress s ++ trail
      ∧ (∀ c ∈ lead, c ∈ whiteSpace) ∧ (∀ c ∈ trail, c ∈ whiteSpace)
      ∧ (∀ c, (ExtractEmailAddress s).head? = some c → c ∉ whiteSpace)
      ∧ (∀ c, (ExtractEmailAddress s).getLast? = some c → c ∉ whiteSpace) := by
  rw [ExtractEmailAddress_eq_TrimSpace s h]
  obtain ⟨lead, trail, e, h1, h2, h3, h4⟩ := TrimSpace_spec s
  refine ⟨lead, trail, e, ?_, ?_, ?_, ?_⟩
  · intro c hc
    exact (isSpace_iff c).mp (h1 c hc)
  · intro c hc
    exact (isSpace_iff c).mp (h2 c hc)
  · intro c hc hw
    have := h3 c hc
    rw [(isSpace_iff c).mpr hw] at this
    cases this
  · intro c hc hw
    have := h4 c hc
    rw [(isSpace_iff c).mpr hw] at this
    cases this

/-- C11 at `broken > <` with a space and a tab before it and CR LF after it:
the white space around it goes and the rest comes back unchanged. -/
theorem ExtractEmailAddress_without_brackets_witness :
    ('<' ∉ " \tbroken > <\r\n".toList ∨ '>' ∉ " \tbroken > <\r\n".toList
      ∨ ∃ pre post, " \tbroken > <\r\n".toList = pre ++ '>' :: post ∧ '<' ∉ pre ∧ '>' ∉ pre)
    ∧ ExtractEmailAddress " \tbroken > <\r\n".toList = "broken > <".toList
    ∧ ∃ lead trail,
      " \tbroken > <\r\n".toList
        = lead ++ ExtractEmailAddress " \tbroken > <\r\n".toList ++ trail
      ∧ (∀ c ∈ lead, c ∈ whiteSpace) ∧ (∀ c ∈ trail, c ∈ whiteSpace)
      ∧ (∀ c, (ExtractEmailAddress " \tbroken > <\r\n".toList).head? = some c →
          c ∉ whiteSpace)
      ∧ (∀ c, (ExtractEmailAddress " \tbroken > <\r\n".toList).getLast? = some c →
          c ∉ whiteSpace) :=
  ⟨Or.inr (Or.inr ⟨" \tbroken ".toList, " <\r\n".toList, by decide, by decide, by decide⟩),
    by decide,
    ExtractEmailAddress_without_brackets " \tbroken > <\r\n".toList
      (Or.inr (Or.inr ⟨" \tbroken ".toList, " <\r\n".toList, by decide, by decide,
        by decide⟩))⟩

/-- C12: for every message whose `Body` is non-empty, body resolution leaves
`HTMLBody` equal to `Body` and `TextBody` equal to the tag-stripped `Body`,
whatever the two held before. -/
theorem resolveBody_from_Body (StripHTML : Str → Str) (data : SendMailData)
    (h : data.Body ≠ []) :
    (resolveBody StripHTML data).HTMLBody = data.Body
    ∧ (resolveBody StripHTML data).TextBody = StripHTML data.Body := by
  have hl : data.Body.length > 0 := List.length_pos.mpr h
  unfold resolveBody
  rw [if_pos hl]
  exact ⟨rfl, rfl⟩

/-- C12 at the message whose only body field is `Body = <h1>Hi</h1>`, with a
stripper that answers `Hi`. -/
theorem resolveBody_from_Body_witness :
    ({ sampleMessage with Body := "<h1>Hi</h1>".toList } : SendMailData).Body ≠ []
    ∧ (resolveBody (fun _ => "Hi".toList)
        { sampleMessage with Body := "<h1>Hi</h1>".toList }).HTMLBody = "<h1>Hi</h1>".toList
    ∧ (resolveBody (fun _ => "Hi".toList)
        { sampleMessage with Body := "<h1>Hi</h1>".toList }).TextBody = "Hi".toList :=
  ⟨by decide,
    resolveBody_from_Body (fun _ => "Hi".toList)
      { sampleMessage with Body := "<h1>Hi</h1>".toList } (by decide)⟩

/-- C13: for every message whose `Body` is empty, body resolution fills only
the missing variant.  With `TextBody` empty and `HTMLBody` not, `TextBody`
becomes the tag-stripped `HTMLBody` and `HTMLBody` stays; with `HTMLBody`
empty and `TextBody` not, `HTMLBody` becomes `TextBody` as it is and
`TextBody` stays; with both non-empty or both empty the message is
unchanged. -/
theorem resolveBody_without_Body (StripHTML : Str → Str) (data : SendMailData)
    (h : data.Body = []) :
    (data.TextBody = [] → data.HTMLBody ≠ [] →
      (resolveBody StripHTML data).TextBody = StripHTML data.HTMLBody
      ∧ (resolveBody StripHTML data).HTMLBody = data.HTMLBody)
    ∧ (data.HTMLBody = [] → data.TextBody ≠ [] →
      (resolveBody StripHTML data).HTMLBody = data.TextBody
      ∧ (resolveBody StripHTML data).TextBody = data.TextBody)
    ∧ ((data.HTMLBody ≠ [] ∧ data.TextBody ≠ []) ∨ (data.HTMLBody = [] ∧ data.TextBody = []) →
      resolveBody StripHTML data = data) := by
  have hb : ¬ data.Body.length > 0 := by simp [h]
  unfold resolveBody
  rw [if_neg hb]
  refine ⟨?_, ?_, ?_⟩
  · intro ht hh
    have c : data.TextBody.length = 0 ∧ data.HTMLBody.length > 0 :=
      ⟨by simp [ht], List.length_pos.mpr hh⟩
    rw [if_pos c]
    exact ⟨rfl, rfl⟩
  · intro hh ht
    have c1 : ¬ (data.TextBody.length = 0 ∧ data.HTMLBody.length > 0) := by simp [hh]
    have c2 : data.HTMLBody.length = 0 ∧ data.TextBody.length > 0 :=
      ⟨by simp [hh], List.length_pos.mpr ht⟩
    rw [if_neg c1, if_pos c2]
    exact ⟨rfl, rfl⟩
  · intro hc
    rcases hc with ⟨hh, ht⟩ | ⟨hh, ht⟩
    · have c1 : ¬ (data.TextBody.length = 0 ∧ data.HTMLBody.length > 0) := by
        intro c; exact ht (List.length_eq_zero.mp c.1)
      have c2 : ¬ (data.HTMLBody.length = 0 ∧ data.TextBody.length > 0) := by
        intro c; exact hh (List.length_eq_zero.mp c.1)
      rw [if_neg c1, if_neg c2]
    · have c1 : ¬ (data.TextBody.length = 0 ∧ data.HTMLBody.length > 0) := by simp [hh]
      have c2 : ¬ (data.HTMLBody.length = 0 ∧ data.TextBody.length > 0) := by simp [ht]
      rw [if_neg c1, if_neg c2]

/-- C13 at the sample message, which has only `TextBody = hi`: `HTMLBody`
becomes `hi` and `TextBody` stays. -/
theorem resolveBody_without_Body_witness :
    sampleMessage.Body = []
    ∧ sampleMessage.HTMLBody = [] ∧ sampleMessage.TextBody ≠ []
    ∧ (resolveBody (fun _ => []) sampleMessage).HTMLBody = "hi".toList
    ∧ (resolveBody (fun _ => []) sampleMessage).TextBody = "hi".toList :=
  ⟨rfl, rfl, by decide,
    (resolveBody_without_Body (fun _ => []) sampleMessage rfl).2.1 rfl (by decide)⟩

/-- C14: for every attachment list and every remote side, whether
`fetchAttachments` returns an error or not, the attachments it leaves stand
one for one and in order against those it was given, each with its URL
unchanged, unchanged as a whole when it had a body, and with its content type
and file name unchanged when they were supplied; requests are issued, in
order, only for URLs of attachments without a body; and no other field of the
message changes. -/
theorem fetchAttachments_keeps_supplied (remote : Remote) (data : SendMailData) :
    List.Forall₂
        (fun a a' => a'.URL = a.URL ∧ (a.Body ≠ [] → a' = a)
          ∧ (a.ContentType ≠ [] → a'.ContentType = a.ContentType)
          ∧ (a.Filename ≠ [] → a'.Filename = a.Filename))
        data.Attachments (fetchAttachments remote data).1.Attachments
    ∧ (∃ rest, (data.Attachments.filter (fun a => decide (a.Body = []))).map (fun a => a.URL)
        = (fetchAttachments remote data).2.2 ++ rest)
    ∧ (fetchAttachments remote data).1
        = { data with Attachments := (fetchAttachments remote data).1.Attachments } := by
  rw [fetchAttachments_eq]
  exact ⟨fetchFrom_Kept remote data.Attachments 0 0,
    fetchFrom_requested remote data.Attachments 0 0, rfl⟩

/-- C15: for every attachment list in which an attachment has neither body nor
URL while the attachments before it go through hydration without error,
`fetchAttachments` returns the error `attachment i has no URL` for its
position `i`, and the requests issued are exactly those made for the earlier
attachments: none for this attachment, none for a later one. -/
theorem fetchAttachments_missing_URL (remote : Remote) (data : SendMailData)
    (l1 l2 : List Attachment) (a : Attachment)
    (hs : data.Attachments = l1 ++ a :: l2) (hb : a.Body = []) (hu : a.URL = [])
    (hprev : (fetchAttachments remote { data with Attachments := l1 }).2.1 = none) :
    (fetchAttachments remote data).2.1
        = some ("attachment ".toList ++ fmtInt l1.length ++ " has no URL".toList)
    ∧ (fetchAttachments remote data).2.2
        = (fetchAttachments remote { data with Attachments := l1 }).2.2
    ∧ (∀ u ∈ (fetchAttachments remote data).2.2, ∃ b ∈ l1, b.Body = [] ∧ b.URL = u) := by
  rw [fetchAttachments_eq] at hprev ⊢
  rw [fetchAttachments_eq]
  simp only [] at hprev ⊢
  rw [hs, fetchFrom_append remote l1 (a :: l2) 0 0 hprev, fetchFrom_cons]
  rcases fetchOne_cases remote (0 + l1.length)
      (0 + (fetchFrom remote 0 0 l1).2.2.length) a with ⟨h, _⟩ | ⟨_, _, h⟩ | ⟨_, h, _⟩
    | ⟨_, h, _⟩
  · exact absurd hb h
  · rw [h]
    simp only [Nat.zero_add, List.append_nil, true_and]
    intro u hu'
    obtain ⟨rest, hr⟩ := fetchFrom_requested remote l1 0 0
    have hm : u ∈ (l1.filter (fun a => decide (a.Body = []))).map (fun a => a.URL) := by
      rw [hr]; exact List.mem_append_left _ hu'
    obtain ⟨b, hbm, rfl⟩ := List.mem_map.mp hm
    have hb2 := List.mem_filter.mp hbm
    exact ⟨b, hb2.1, by simpa using hb2.2, rfl⟩
  · exact absurd hu h
  · exact absurd hu h

/-- C15 at the sample message with the test's attachment followed by an
attachment without body and URL: the error names position 1 and the only
request is the one for the first attachment. -/
theorem fetchAttachments_missing_URL_witness :
    hydrationMessage.Attachments = [logoAttachment] ++ bareAttachment :: []
    ∧ bareAttachment.Body = [] ∧ bareAttachment.URL = []
    ∧ (fetchAttachments pngRemote { hydrationMessage with Attachments := [logoAttachment] }).2.1
        = none
    ∧ (fetchAttachments pngRemote hydrationMessage).2.1
        = some ("attachment ".toList ++ fmtInt [logoAttachment].length ++ " has no URL".toList)
    ∧ (fetchAttachments pngRemote hydrationMessage).2.2
        = (fetchAttachments pngRemote
            { hydrationMessage with Attachments := [logoAttachment] }).2.2
    ∧ (∀ u ∈ (fetchAttachments pngRemote hydrationMessage).2.2,
        ∃ b ∈ [logoAttachment], b.Body = [] ∧ b.URL = u) :=
  ⟨rfl, rfl, rfl, by decide,
    fetchAttachments_missing_URL pngRemote hydrationMessage [logoAttachment] [] bareAttachment
      rfl rfl rfl (by decide)⟩

/-- C18 as stated fails: when the remote side answers status 200 with an
empty body, `fetchAttachments` returns nil and the attachment's body is still
empty. -/
theorem fetchAttachments_empty_response_body :
    (fetchAttachments emptyRemote { sampleMessage with Attachments := [logoAttachment] }).2.1
      = none
    ∧ (fetchAttachments emptyRemote
        { sampleMessage with Attachments := [logoAttachment] }).1.Attachments.map
          (fun a => a.Body) = [[]] := by
  decide

/-- C18, amended: for every attachment supplied without body, whenever
`fetchAttachments` returns nil the attachment has a URL and its body is
exactly the octets read from a response with status 200 to a request for that
URL; it is non-empty exactly when that response body is. -/
theorem fetchAttachments_body_from_response (remote : Remote) (data : SendMailData)
    (l1 l2 : List Attachment) (a : Attachment)
    (hs : data.Attachments = l1 ++ a :: l2) (hb : a.Body = [])
    (hok : (fetchAttachments remote data).2.1 = none) :
    ∃ l1' a' l2' n resp body,
      (fetchAttachments remote data).1.Attachments = l1' ++ a' :: l2'
      ∧ l1'.length = l1.length
      ∧ a.URL ≠ []
      ∧ remote n a.URL = .ok resp ∧ resp.StatusCode = 200 ∧ resp.Body = .ok body
      ∧ a'.Body = body := by
  rw [fetchAttachments_eq] at hok ⊢
  simp only [] at hok ⊢
  rw [hs] at hok ⊢
  have hprev : (fetchFrom remote 0 0 l1).2.1 = none := by
    cases h : (fetchFrom remote 0 0 l1).2.1 with
    | none => rfl
    | some err =>
      rw [fetchFrom_append_error remote l1 (a :: l2) 0 0 err h] at hok
      cases hok
  rw [fetchFrom_append remote l1 (a :: l2) 0 0 hprev, fetchFrom_cons] at hok ⊢
  rcases fetchOne_cases remote (0 + l1.length)
      (0 + (fetchFrom remote 0 0 l1).2.2.length) a with ⟨h, _⟩ | ⟨_, _, h⟩ | ⟨_, _, err, h⟩
    | ⟨_, hu, resp, body, hr, hc, hbody, h⟩
  · exact absurd hb h
  · rw [h] at hok; cases hok
  · rw [h] at hok; cases hok
  · rw [h]
    refine ⟨_, _, _, _, resp, body, rfl, fetchFrom_length remote l1 0 0, hu, hr, hc, hbody, ?_⟩
    rw [(setFilename_others resp _ _).2.1, setContentType_Body]

/-- C18, amended, at the sample message with the test's attachment and a
remote side that answers with four octets. -/
theorem fetchAttachments_body_from_response_witness :
    ({ sampleMessage with Attachments := [logoAttachment] } : SendMailData).Attachments
        = [] ++ logoAttachment :: []
    ∧ logoAttachment.Body = []
    ∧ (fetchAttachments pngRemote { sampleMessage with Attachments := [logoAttachment] }).2.1
        = none
    ∧ ∃ l1' a' l2' n resp body,
      (fetchAttachments pngRemote
          { sampleMessage with Attachments := [logoAttachment] }).1.Attachments
        = l1' ++ a' :: l2'
      ∧ l1'.length = ([] : List Attachment).length
      ∧ logoAttachment.URL ≠ []
      ∧ pngRemote n logoAttachment.URL = .ok resp ∧ resp.StatusCode = 200
      ∧ resp.Body = .ok body
      ∧ a'.Body = body :=
  ⟨rfl, rfl, by decide,
    fetchAttachments_body_from_response pngRemote
      { sampleMessage with Attachments := [logoAttachment] } [] [] logoAttachment rfl rfl
      (by decide)⟩

/-- C16 as stated fails: for a `Content-Type` value without `;` that is led by
a no-break space, the content type after hydration is the value as it came,
not the value with the surrounding white space trimmed. -/
theorem fetchAttachments_content_type_untrimmed :
    (fetchAttachments nbspRemote { sampleMessage with Attachments := [logoAttachment] }).2.1
      = none
    ∧ (fetchAttachments nbspRemote
        { sampleMessage with Attachments := [logoAttachment] }).1.Attachments.map
          (fun a => a.ContentType) = [Char.ofNat 0xA0 :: "image/png".toList]
    ∧ TrimSpace (beforeSemicolon (Char.ofNat 0xA0 :: "image/png".toList)) = "image/png".toList
    ∧ Char.ofNat 0xA0 :: "image/png".toList
        ≠ TrimSpace (beforeSemicolon (Char.ofNat 0xA0 :: "image/png".toList)) := by
  decide

/-- C16, amended: for every attachment without body and content type whose
fetch is answered with status 200 and a readable body, the content type after
hydration is the `Content-Type` value itself when it holds no `;`, and what
stands before its first `;` with the surrounding white space trimmed when it
holds one; when the response has no `Content-Type` header the content type
stays empty. -/
theorem fetchAttachments_content_type (remote : Remote) (data : SendMailData)
    (l1 l2 : List Attachment) (a : Attachment) (resp : HTTPResponse) (body : Bytes)
    (hs : data.Attachments = l1 ++ a :: l2) (hb : a.Body = []) (hc : a.ContentType = [])
    (hu : a.URL ≠ [])
    (hprev : (fetchAttachments remote { data with Attachments := l1 }).2.1 = none)
    (hget : remote (fetchAttachments remote { data with Attachments := l1 }).2.2.length a.URL
      = .ok resp)
    (hst : resp.StatusCode = 200) (hbody : resp.Body = .ok body) :
    ∃ l1' a' l2', (fetchAttachments remote data).1.Attachments = l1' ++ a' :: l2'
      ∧ l1'.length = l1.length
      ∧ a'.ContentType
          = (if ';' ∈ resp.Header.Get "Content-Type".toList
             then TrimSpace (beforeSemicolon (resp.Header.Get "Content-Type".toList))
             else resp.Header.Get "Content-Type".toList)
      ∧ ((∀ e ∈ resp.Header.entries, e.1 ≠ "Content-Type".toList) → a'.ContentType = []) := by
  obtain ⟨l1', l2', he, hl⟩ :=
    fetchAttachments_at remote data l1 l2 a resp body hs hb hu hprev hget hst hbody
  have hct : (setFilename resp l1.length (setContentType resp { a with Body := body })).ContentType
      = contentTypeOf (resp.Header.Get "Content-Type".toList) := by
    rw [(setFilename_others resp _ _).2.2]
    exact setContentType_eq resp { a with Body := body } hc
  refine ⟨l1', _, l2', he, hl, hct, ?_⟩
  intro habs
  rw [hct, Header_Get_absent _ _ habs]
  rfl

/-- C16, amended, at the test's attachment and a `Content-Type` value with a
parameter: the content type is `image/png`. -/
theorem fetchAttachments_content_type_witness :
    ({ sampleMessage with Attachments := [logoAttachment] } : SendMailData).Attachments
        = [] ++ logoAttachment :: []
    ∧ logoAttachment.Body = [] ∧ logoAttachment.ContentType = [] ∧ logoAttachment.URL ≠ []
    ∧ ∃ l1' a' l2',
      (fetchAttachments charsetRemote
          { sampleMessage with Attachments := [logoAttachment] }).1.Attachments
        = l1' ++ a' :: l2'
      ∧ l1'.length = ([] : List Attachment).length
      ∧ a'.ContentType
          = (if ';' ∈ "image/png ; charset=utf-8".toList
             then TrimSpace (beforeSemicolon "image/png ; charset=utf-8".toList)
             else "image/png ; charset=utf-8".toList)
      ∧ ((∀ e ∈ [("Content-Type".toList, "image/png ; charset=utf-8".toList)],
            e.1 ≠ "Content-Type".toList) → a'.ContentType = []) :=
  ⟨rfl, rfl, rfl, by decide,
    fetchAttachments_content_type charsetRemote
      { sampleMessage with Attachments := [logoAttachment] } [] [] logoAttachment
      ⟨200, ⟨[("Content-Type".toList, "image/png ; charset=utf-8".toList)]⟩,
        .ok [137, 80, 78, 71]⟩ [137, 80, 78, 71] rfl rfl rfl (by decide) (by decide) rfl rfl rfl⟩

/-- C17 as stated fails on both provisos it leaves out.  For a URL without
`?` that ends in `/` and a response without `Content-Disposition`, the file
name is `attachment_1`, not the (empty) text after the last `/`; and when the
fetch is answered with status 200 but the body cannot be read, hydration
returns an error and the file name stays empty. -/
theorem fetchAttachments_filename_provisos :
    (dirAttachment.URL = "http://h/dir".toList ++ '/' :: [] ∧ '?' ∉ dirAttachment.URL
      ∧ (fetchAttachments pngRemote { sampleMessage with Attachments := [dirAttachment] }).2.1
          = none
      ∧ (fetchAttachments pngRemote
          { sampleMessage with Attachments := [dirAttachment] }).1.Attachments.map
            (fun a => a.Filename) = ["attachment_1".toList]
      ∧ "attachment_1".toList ≠ ([] : Str))
    ∧ ((fetchAttachments unreadableRemote
          { sampleMessage with Attachments := [logoAttachment] }).2.1
          = some ("failed to read attachment body from ".toList ++ logoAttachment.URL
              ++ ": unexpected EOF".toList)
      ∧ (fetchAttachments unreadableRemote
          { sampleMessage with Attachments := [logoAttachment] }).1.Attachments.map
            (fun a => a.Filename) = [[]]) := by
  decide

/-- C17, amended: for every attachment at position `i` without body and file
name whose fetch is answered with status 200 and whose response body is read
without error, the file name after hydration follows the priority order: the
text after `filename=` in the `Content-Disposition` value with the
surrounding double quotes removed, when non-empty; otherwise the final
`/`-separated segment of the URL cut at its first `?`, when non-empty;
otherwise `attachment_` followed by `i + 1`.  It is never empty, and without
a `Content-Disposition` header it is the text after the last `/` of the URL
when that text is non-empty and holds no `?`. -/
theorem fetchAttachments_filename (remote : Remote) (data : SendMailData)
    (l1 l2 : List Attachment) (a : Attachment) (resp : HTTPResponse) (body : Bytes)
    (hs : data.Attachments = l1 ++ a :: l2) (hb : a.Body = []) (hf : a.Filename = [])
    (hu : a.URL ≠ [])
    (hprev : (fetchAttachments remote { data with Attachments := l1 }).2.1 = none)
    (hget : remote (fetchAttachments remote { data with Attachments := l1 }).2.2.length a.URL
      = .ok resp)
    (hst : resp.StatusCode = 200) (hbody : resp.Body = .ok body) :
    ∃ l1' a' l2', (fetchAttachments remote data).1.Attachments = l1' ++ a' :: l2'
      ∧ l1'.length = l1.length
      ∧ a'.Filename
          = (if (match textAfter "filename=".toList
                    (resp.Header.Get "Content-Disposition".toList) with
                 | some t => withoutQuotes t
                 | none => []) ≠ []
             then (match textAfter "filename=".toList
                    (resp.Header.Get "Content-Disposition".toList) with
                 | some t => withoutQuotes t
                 | none => [])
             else if (lastSegment a.URL).takeWhile (fun c => c != '?') ≠ []
             then (lastSegment a.URL).takeWhile (fun c => c != '?')
             else "attachment_".toList ++ fmtInt (l1.length + 1))
      ∧ a'.Filename ≠ []
      ∧ (resp.Header.Get "Content-Disposition".toList = [] →
          ∀ pre seg, a.URL = pre ++ '/' :: seg → '/' ∉ seg → '?' ∉ seg → seg ≠ [] →
            a'.Filename = seg) := by
  obtain ⟨l1', l2', he, hl⟩ :=
    fetchAttachments_at remote data l1 l2 a resp body hs hb hu hprev hget hst hbody
  have hfn : (setFilename resp l1.length (setContentType resp { a with Body := body })).Filename
      = filenameOf (resp.Header.Get "Content-Disposition".toList) a.URL l1.length := by
    have h0 : (setContentType resp { a with Body := body }).Filename = [] := by
      rw [setContentType_Filename]; exact hf
    rw [setFilename_eq resp l1.length _ h0, setContentType_URL]
  refine ⟨l1', _, l2', he, hl, ?_, ?_, ?_⟩
  · rw [hfn]; rfl
  · rw [hfn]; exact filenameOf_ne_nil _ _ _
  · intro hcd pre seg hurl hns hnq hne
    rw [hfn, hcd, hurl]
    unfold filenameOf
    have e1 : textAfter "filename=".toList [] = none := rfl
    simp only [e1, ne_eq, not_true_eq_false, if_false, lastSegment_after pre seg hns,
      takeWhile_ne_all '?' seg hnq, hne, not_false_eq_true, if_true]

/-- C17, amended, at the test's attachment twice: with a response whose
`Content-Disposition` is `attachment; filename="file.pdf"` the file name is
`file.pdf`, the quotes removed; with a response that has no
`Content-Disposition` header it is `logo-sb-red-text.png`. -/
theorem fetchAttachments_filename_witness :
    ({ sampleMessage with Attachments := [logoAttachment] } : SendMailData).Attachments
        = [] ++ logoAttachment :: []
    ∧ logoAttachment.Body = [] ∧ logoAttachment.Filename = [] ∧ logoAttachment.URL ≠ []
    ∧ logoAttachment.URL
        = "https://staticbackend.dev/img".toList ++ '/' :: "logo-sb-red-text.png".toList
    ∧ (∃ a', (fetchAttachments dispositionRemote
          { sampleMessage with Attachments := [logoAttachment] }).1.Attachments = [a']
      ∧ a'.Filename = "file.pdf".toList)
    ∧ (∃ a', (fetchAttachments pngRemote
          { sampleMessage with Attachments := [logoAttachment] }).1.Attachments = [a']
      ∧ a'.Filename = "logo-sb-red-text.png".toList) := by
  refine ⟨rfl, rfl, rfl, by decide, by decide, ?_, ?_⟩
  · obtain ⟨l1', a', l2', he, hl, hrule, _, _⟩ :=
      fetchAttachments_filename dispositionRemote
        { sampleMessage with Attachments := [logoAttachment] } [] [] logoAttachment
        ⟨200, ⟨[("Content-Disposition".toList, "attachment; filename=\"file.pdf\"".toList)]⟩,
          .ok [37, 80, 68, 70]⟩
        [37, 80, 68, 70] rfl rfl rfl (by decide) (by decide) rfl rfl rfl
    have hn : l1' = [] := List.length_eq_zero.mp hl
    subst hn
    have hlen : (fetchAttachments dispositionRemote
        { sampleMessage with Attachments := [logoAttachment] }).1.Attachments.length = 1 := by
      decide
    rw [he] at hlen
    have hl2 : l2' = [] := by
      apply List.length_eq_zero.mp
      simpa using hlen
    subst hl2
    refine ⟨a', he, ?_⟩
    rw [hrule]
    decide
  · obtain ⟨l1', a', l2', he, hl, _, _, hseg⟩ :=
      fetchAttachments_filename pngRemote { sampleMessage with Attachments := [logoAttachment] }
        [] [] logoAttachment
        ⟨200, ⟨[("Content-Type".toList, "image/png".toList)]⟩, .ok [137, 80, 78, 71]⟩
        [137, 80, 78, 71] rfl rfl rfl (by decide) (by decide) rfl rfl rfl
    have hn : l1' = [] := List.length_eq_zero.mp hl
    subst hn
    have hlen : (fetchAttachments pngRemote
        { sampleMessage with Attachments := [logoAttachment] }).1.Attachments.length = 1 := by
      decide
    rw [he] at hlen
    have hl2 : l2' = [] := by
      apply List.length_eq_zero.mp
      simpa using hlen
    subst hl2
    exact ⟨a', he, hseg (by decide) "https://staticbackend.dev/img".toList
      "logo-sb-red-text.png".toList (by decide) (by decide) (by decide) (by decide)⟩

/-- C19 as stated fails: when the transport has sent the message and tenant
extraction then fails, the handler answers 400 although `Send` returned nil. -/
theorem sudoSendMail_error_after_send :
    (sudoSendMail lostTenantRequest).1
        = Response.Error "invalid StaticBackend key".toList StatusBadRequest
    ∧ Call.Send (resolveBody lostTenantRequest.StripHTML { sampleMessage with Attachments := [] })
        none ∈ (sudoSendMail lostTenantRequest).2 := by
  decide

/-- C19, amended: whenever `sudoSendMail` answers with an error status, either
no call of the transport's `Send` returned nil (it was not invoked, or it
returned an error), or `Send` had succeeded and the failure is that of the
tenant extraction which follows it, answered with status 400. -/
theorem sudoSendMail_error_status (r : Request)
    (h : (sudoSendMail r).1.code ≠ StatusOK) :
    (∀ d, Call.Send d none ∉ (sudoSendMail r).2)
    ∨ (∃ err, r.Extract = .error err
        ∧ (sudoSendMail r).1 = Response.Error err StatusBadRequest) := by
  unfold sudoSendMail at h ⊢
  cases hp : r.parseBody with
  | error err =>
    left
    intro d
    simp
  | ok data =>
    rw [hp] at h
    simp only [] at h ⊢
    generalize (if data.Attachments.length > 0 then fetchAttachments r.remote data
      else (data, none, [])) = fetched at h ⊢
    rcases fetched with ⟨data', ferr, requested⟩
    cases ferr with
    | some err =>
      left
      intro d
      simp
    | none =>
      simp only [] at h ⊢
      cases hsend : r.Send (resolveBody r.StripHTML data') with
      | some err =>
        left
        intro d
        simp
      | none =>
        rw [hsend] at h
        simp only [] at h ⊢
        cases he : r.Extract with
        | error err =>
          right
          exact ⟨err, rfl, rfl⟩
        | ok id =>
          rw [he] at h
          simp only [] at h
          cases hi : r.IncrementMonthlyEmailSent id with
          | some err => rw [hi] at h; exact absurd rfl h
          | none => rw [hi] at h; exact absurd rfl h

/-- C19, amended, at the run in which tenant extraction fails after the
send. -/
theorem sudoSendMail_error_status_witness :
    (sudoSendMail lostTenantRequest).1.code ≠ StatusOK
    ∧ ((∀ d, Call.Send d none ∉ (sudoSendMail lostTenantRequest).2)
      ∨ (∃ err, lostTenantRequest.Extract = .error err
          ∧ (sudoSendMail lostTenantRequest).1 = Response.Error err StatusBadRequest)) :=
  ⟨by decide, sudoSendMail_error_status lostTenantRequest (by decide)⟩

/-- C20: for every run in which parsing, hydration, the transport's `Send`
and tenant extraction succeed, `sudoSendMail` answers status 200 with the
value `true`, whatever `IncrementMonthlyEmailSent` returns. -/
theorem sudoSendMail_ignores_quota_error (r : Request) (data : SendMailData) (id : Str)
    (hp : r.parseBody = .ok data)
    (hf : (fetchAttachments r.remote data).2.1 = none)
    (hsend : r.Send (resolveBody r.StripHTML (fetchAttachments r.remote data).1) = none)
    (he : r.Extract = .ok id) :
    (sudoSendMail r).1 = Response.respond StatusOK true := by
  have hfetched : (if data.Attachments.length > 0 then fetchAttachments r.remote data
      else (data, none, [])) = fetchAttachments r.remote data := by
    by_cases hl : data.Attachments.length > 0
    · rw [if_pos hl]
    · rw [if_neg hl]
      unfold fetchAttachments
      rw [if_pos (by omega)]
  unfold sudoSendMail
  rw [hp]
  simp only [hfetched]
  rcases hfa : fetchAttachments r.remote data with ⟨data', ferr, requested⟩
  rw [hfa] at hf hsend
  simp only [] at hf hsend
  subst hf
  simp only [hsend, he]
  cases r.IncrementMonthlyEmailSent id <;> rfl

/-- C20 at the run in which the quota increment fails: the answer is still
200 with `true`. -/
theorem sudoSendMail_ignores_quota_error_witness :
    quotaErrorRequest.parseBody = .ok { sampleMessage with Attachments := [logoAttachment] }
    ∧ quotaErrorRequest.IncrementMonthlyEmailSent "tenant".toList = some "db down".toList
    ∧ (sudoSendMail quotaErrorRequest).1 = Response.respond StatusOK true :=
  ⟨rfl, rfl,
    sudoSendMail_ignores_quota_error quotaErrorRequest
      { sampleMessage with Attachments := [logoAttachment] } "tenant".toList rfl (by decide)
      rfl rfl⟩

/-! ## The claims about the error status of the handler and about the address
in the headers -/

/-- C21 as stated fails: an attachment with neither body nor URL, and a
message whose `From` the local transport rejects, are both answered with
status 500, not with a client-error status. -/
theorem sudoSendMail_validation_error_is_500 :
    (sudoSendMail bareAttachmentRequest).1
        = Response.Error "attachment 0 has no URL".toList 500
    ∧ (sudoSendMail noSenderRequest).1 = Response.Error "empty From email".toList 500 := by
  decide

/-- C21, amended: for every request whose body parses, a failure of the send
is answered with status 500 carrying the error message, whether the error is
a validation error or a transport failure: so it is for every error returned
by attachment hydration and for every error returned by the transport's
`Send`.  Status 500 is produced by these two failures only; the handler's
only client-error answer after parsing is the 400 of a failed tenant
extraction. -/
theorem sudoSendMail_send_failure_status (r : Request) (data : SendMailData)
    (hp : r.parseBody = .ok data) :
    (∀ err, (fetchAttachments r.remote data).2.1 = some err →
      (sudoSendMail r).1 = Response.Error err StatusInternalServerError)
    ∧ (∀ err, (fetchAttachments r.remote data).2.1 = none →
        r.Send (resolveBody r.StripHTML (fetchAttachments r.remote data).1) = some err →
        (sudoSendMail r).1 = Response.Error err StatusInternalServerError)
    ∧ ((sudoSendMail r).1.code = StatusInternalServerError →
        (fetchAttachments r.remote data).2.1 ≠ none
        ∨ r.Send (resolveBody r.StripHTML (fetchAttachments r.remote data).1) ≠ none)
    ∧ ((sudoSendMail r).1.code = StatusBadRequest →
        ∃ err, r.Extract = .error err
          ∧ (sudoSendMail r).1 = Response.Error err StatusBadRequest) := by
  have hfetched : (if data.Attachments.length > 0 then fetchAttachments r.remote data
      else (data, none, [])) = fetchAttachments r.remote data := by
    by_cases hl : data.Attachments.length > 0
    · rw [if_pos hl]
    · rw [if_neg hl]
      unfold fetchAttachments
      rw [if_pos (by omega)]
  unfold sudoSendMail
  rw [hp]
  simp only [hfetched]
  rcases fetchAttachments r.remote data with ⟨data', ferr, requested⟩
  cases ferr with
  | some e =>
    refine ⟨?_, ?_, ?_, ?_⟩
    · intro err h; cases h; rfl
    · intro err h; cases h
    · intro _; left; simp
    · intro h; simp [Response.code, StatusBadRequest, StatusInternalServerError, StatusOK] at h
  | none =>
    simp only []
    cases hsend : r.Send (resolveBody r.StripHTML data') with
    | some e =>
      refine ⟨?_, ?_, ?_, ?_⟩
      · intro err h; cases h
      · intro err _ h; cases h; rfl
      · intro _; right; simp
      · intro h; simp [Response.code, StatusBadRequest, StatusInternalServerError, StatusOK] at h
    | none =>
      simp only []
      cases he : r.Extract with
      | error e =>
        refine ⟨?_, ?_, ?_, ?_⟩
        · intro err h; cases h
        · intro err _ h; cases h
        · intro h; simp [Response.code, StatusBadRequest, StatusInternalServerError, StatusOK] at h
        · intro _; exact ⟨e, rfl, rfl⟩
      | ok id =>
        simp only []
        cases r.IncrementMonthlyEmailSent id <;>
        · refine ⟨?_, ?_, ?_, ?_⟩
          · intro err h; cases h
          · intro err _ h; cases h
          · intro h; simp [Response.code, StatusBadRequest, StatusInternalServerError, StatusOK] at h
          · intro h; simp [Response.code, StatusBadRequest, StatusInternalServerError, StatusOK] at h

/-- C21, amended, at the run whose message has an attachment with neither
body nor URL: the validation error is answered with status 500. -/
theorem sudoSendMail_send_failure_status_witness :
    bareAttachmentRequest.parseBody = .ok { sampleMessage with Attachments := [bareAttachment] }
    ∧ (fetchAttachments bareAttachmentRequest.remote
        { sampleMessage with Attachments := [bareAttachment] }).2.1
        = some "attachment 0 has no URL".toList
    ∧ (sudoSendMail bareAttachmentRequest).1
        = Response.Error "attachment 0 has no URL".toList StatusInternalServerError :=
  ⟨rfl, by decide,
    (sudoSendMail_send_failure_status bareAttachmentRequest
      { sampleMessage with Attachments := [bareAttachment] } rfl).1
      "attachment 0 has no URL".toList (by decide)⟩

/-- C22: for every message whose `FromName` is non-empty and holds neither
`<` nor `>` and whose `From` holds neither, the output of `BuildRawEmail`
starts with the line `From: FromName <From>`, and `ExtractEmailAddress` on
that header value returns exactly `From`; likewise the second line is
`To: ToName <To>` and `ExtractEmailAddress` on its value returns exactly `To`
under the same conditions on `ToName` and `To`. -/
theorem ExtractEmailAddress_of_header (data : SendMailData) (D B A : Str) :
    (data.FromName ≠ [] → '<' ∉ data.FromName → '>' ∉ data.FromName →
      '<' ∉ data.From → '>' ∉ data.From →
        (∃ rest, BuildRawEmail data D B A
          = .ok ("From: ".toList
              ++ (data.FromName ++ " <".toList ++ data.From ++ ">".toList) ++ CRLF ++ rest))
        ∧ ExtractEmailAddress (data.FromName ++ " <".toList ++ data.From ++ ">".toList)
            = data.From)
    ∧ (data.ToName ≠ [] → '<' ∉ data.ToName → '>' ∉ data.ToName →
      '<' ∉ data.To → '>' ∉ data.To →
        (∃ rest, BuildRawEmail data D B A
          = .ok ("From: ".toList
              ++ (if data.FromName ≠ []
                  then data.FromName ++ " <".toList ++ data.From ++ ">".toList
                  else data.From) ++ CRLF
              ++ ("To: ".toList
                ++ (data.ToName ++ " <".toList ++ data.To ++ ">".toList) ++ CRLF)
              ++ rest))
        ∧ ExtractEmailAddress (data.ToName ++ " <".toList ++ data.To ++ ">".toList)
            = data.To) := by
  constructor
  · intro hn h1 h2 _ h4
    refine ⟨?_, ExtractEmailAddress_named _ _ h1 h2 h4⟩
    obtain ⟨rest, h⟩ := BuildRawEmail_first_lines data D B A
    rw [if_pos hn] at h
    rw [h]
    simp only [List.append_assoc]
    exact ⟨_, rfl⟩
  · intro hn h1 h2 _ h4
    refine ⟨?_, ExtractEmailAddress_named _ _ h1 h2 h4⟩
    obtain ⟨rest, h⟩ := BuildRawEmail_first_lines data D B A
    rw [if_pos hn] at h
    exact ⟨rest, h⟩

/-- C22 at a message from `Jane Doe <j@x.com>` to `Al <c@d.com>`: the helper
returns `j@x.com` and `c@d.com`. -/
theorem ExtractEmailAddress_of_header_witness :
    (namedMessage.FromName ≠ [] ∧ '<' ∉ namedMessage.FromName ∧ '>' ∉ namedMessage.FromName
      ∧ '<' ∉ namedMessage.From ∧ '>' ∉ namedMessage.From)
    ∧ ExtractEmailAddress "Jane Doe <j@x.com>".toList = "j@x.com".toList
    ∧ ExtractEmailAddress "Al <c@d.com>".toList = "c@d.com".toList :=
  ⟨by decide,
    ((ExtractEmailAddress_of_header namedMessage "D".toList "B".toList "A".toList).1
      (by decide) (by decide) (by decide) (by decide) (by decide)).2,
    ((ExtractEmailAddress_of_header namedMessage "D".toList "B".toList "A".toList).2
      (by decide) (by decide) (by decide) (by decide) (by decide)).2⟩

end Email
